import Mathlib

/-!
Verification of the animatooor raster post-processing pipeline.

Shallow embedding of `src/utils/dithering.ts` (quantizer, five dithering
algorithms, resolution-scaled fast path, global color cache) and of the
export scheduler in the video-export hook (frame dispatch, capture loop,
timing, crop, progress reporting).

Framebuffers are modelled as `List ℚ` in RGBA order (four rationals per
pixel); `Uint8ClampedArray` stores that may receive fractional values are
modelled with an explicit clamp-and-round-half-to-even.  Palettes are lists
of natural-number RGB triples.  The process-wide memoization cache of
`findNearestColor` is threaded explicitly as a value.
-/

/-- RGB triple, as stored in a palette. -/
abbrev Triple : Type := ℕ × ℕ × ℕ

/-- Read a buffer cell; out-of-range reads give 0. -/
def getQ (l : List ℚ) (i : ℕ) : ℚ := (l.get? i).getD 0

/-- clamping to [0,255]: `Math.max(0, Math.min(255, v))`. -/
def clamp255 (v : ℚ) : ℚ := max 0 (min 255 v)

/-- `v | 0` applied to a clamped (hence non-negative) value: truncation,
    i.e. the floor, converted to a natural number. -/
def ratByte (v : ℚ) : ℕ := (⌊v⌋).toNat

/-- Round half to even, the rounding mode of `Uint8ClampedArray` stores. -/
def roundHalfEven (q : ℚ) : ℤ :=
  if q - (⌊q⌋ : ℚ) = 1/2 then (if 2 ∣ ⌊q⌋ then ⌊q⌋ else ⌊q⌋ + 1) else round q

/-- A store into a `Uint8ClampedArray` cell: clamp to [0,255] and round
    half to even. -/
def u8Store (q : ℚ) : ℚ := ((roundHalfEven (clamp255 q) : ℤ) : ℚ)

/-! ## Quantizer: `findNearestColor` and the global color cache -/

/-- Squared Euclidean RGB distance `(r-pr)²+(g-pg)²+(b-pb)²`. -/
def sqDist (r g b : ℕ) (p : Triple) : ℤ :=
  ((r : ℤ) - p.1) ^ 2 + ((g : ℤ) - p.2.1) ^ 2 + ((b : ℤ) - p.2.2) ^ 2

/-- `dist < minDist` where `minDist` starts as `Infinity` (`none`). -/
def distLt (d : ℤ) (m : Option ℤ) : Bool :=
  match m with
  | none => true
  | some d0 => d < d0

/-- One iteration of the linear scan in `findNearestColor`. -/
def scanStep (r g b : ℕ) (acc : Option ℤ × Triple) (p : Triple) : Option ℤ × Triple :=
  if distLt (sqDist r g b p) acc.1 then (some (sqDist r g b p), p) else acc

/-- The cache-miss linear scan of `findNearestColor`: `minDist = Infinity`,
    `nearest = palette[0]`, keep strictly smaller distances. -/
def nearestScan (r g b : ℕ) (palette : List Triple) : Triple :=
  (palette.foldl (scanStep r g b) (none, palette.headD ((0, 0, 0) : Triple))).2

/-- Cache key `(r << 16) | (g << 8) | b`. -/
def cacheKey (r g b : ℕ) : ℕ := r * 65536 + g * 256 + b

/-- The color cache, in insertion order (oldest first), mirroring a JS `Map`. -/
abbrev Cache : Type := List (ℕ × Triple)

def MAX_CACHE_SIZE : ℕ := 8192

def cacheLookup (c : Cache) (k : ℕ) : Option Triple :=
  (c.find? (fun e => e.1 = k)).map Prod.snd

/-- `colorCache.set` with LRU eviction of the first (oldest) key when full. -/
def cacheInsert (c : Cache) (k : ℕ) (v : Triple) : Cache :=
  (if MAX_CACHE_SIZE ≤ c.length then c.drop 1 else c) ++ [(k, v)]

/-- The values held in the cache. -/
def cacheVals (c : Cache) : List Triple := c.map Prod.snd

/-- `findNearestColor` with the process-wide cache threaded explicitly:
    check the cache first, otherwise scan and insert. -/
def findNearestColor (r g b : ℕ) (palette : List Triple) (c : Cache) : Triple × Cache :=
  match cacheLookup c (cacheKey r g b) with
  | some v => (v, c)
  | none => (nearestScan r g b palette, cacheInsert c (cacheKey r g b) (nearestScan r g b palette))

/-- Invariant of the linear scan: after consuming the prefix `pre`, the
    accumulator holds the distance and value of the first minimizer of
    `pre`, every strictly-earlier entry having strictly larger distance. -/
def ScanGood (r g b : ℕ) (pre : List Triple) (acc : Option ℤ × Triple) : Prop :=
  match acc.1 with
  | none => pre = []
  | some d => d = sqDist r g b acc.2 ∧
      (∃ l1 l2, pre = l1 ++ acc.2 :: l2 ∧ ∀ q ∈ l1, d < sqDist r g b q) ∧
      (∀ q ∈ pre, d ≤ sqDist r g b q)

/-! ## Framebuffer write helpers -/

/-- Write a palette triple into the RGB channels at byte index `idx`. -/
def setRGB (data : List ℚ) (idx : ℕ) (p : Triple) : List ℚ :=
  ((data.set idx (p.1 : ℚ)).set (idx+1) (p.2.1 : ℚ)).set (idx+2) (p.2.2 : ℚ)

/-- Accumulate (`+=`) a list of (index, increment) writes into a buffer. -/
def applyAdds (buf : List ℚ) (adds : List (ℕ × ℚ)) : List ℚ :=
  adds.foldl (fun b a => b.set a.1 (getQ b a.1 + a.2)) buf

/-- Zero `len` cells starting at `start` (row-buffer clearing). -/
def clearRange (buf : List ℚ) (start len : ℕ) : List ℚ :=
  (List.range len).foldl (fun b i => b.set (start + i) 0) buf

/-! ## Bayer ordered dithering -/

def bayerMatrix8x8 : List (List ℕ) :=
  [[0, 32, 8, 40, 2, 34, 10, 42],
   [48, 16, 56, 24, 50, 18, 58, 26],
   [12, 44, 4, 36, 14, 46, 6, 38],
   [60, 28, 52, 20, 62, 30, 54, 22],
   [3, 35, 11, 43, 1, 33, 9, 41],
   [51, 19, 59, 27, 49, 17, 57, 25],
   [15, 47, 7, 39, 13, 45, 5, 37],
   [63, 31, 55, 23, 61, 29, 53, 21]]

def bayerAt (my mx : ℕ) : ℕ := (bayerMatrix8x8.getD my []).getD mx 0

/-- One pixel of the Bayer pass: add the centered scaled threshold to each
    channel, clamp and truncate (the intermediate clamped store is read
    straight back), then write the nearest palette color. -/
def bayerPixel (width : ℕ) (palette : List Triple) (intensity : ℚ)
    (s : List ℚ × Cache) (pidx : ℕ) : List ℚ × Cache :=
  let i := pidx * 4
  let x := pidx % width
  let y := pidx / width
  let dither := ((bayerAt (y % 8) (x % 8) : ℚ) - 32) * (255 * intensity / 64)
  let r := ratByte (clamp255 (getQ s.1 i + dither))
  let g := ratByte (clamp255 (getQ s.1 (i+1) + dither))
  let b := ratByte (clamp255 (getQ s.1 (i+2) + dither))
  let pc := findNearestColor r g b palette s.2
  (setRGB s.1 i pc.1, pc.2)

/-- The full-resolution Bayer pass: one loop over `i = 0, 4, 8, …` below
    `data.length`. -/
def applyBayerCore (data : List ℚ) (width : ℕ) (palette : List Triple)
    (intensity : ℚ) (c : Cache) : List ℚ × Cache :=
  (List.range ((data.length + 3) / 4)).foldl (bayerPixel width palette intensity) (data, c)

/-! ## Error-diffusion engine (Floyd–Steinberg, JJN, Stucki, Sierra) -/

/-- An error-diffusion kernel: horizontal border width of the row buffer,
    number of buffered rows, normalizing divisor, and the guarded
    (index, increment) writes performed at a pixel.  The writes get the
    current pixel's buffer index `errIdx` and `rowStart k`, the flat offset
    of the buffer row `k` rows below the current one. -/
structure DiffKernel where
  pad : ℕ
  rows : ℕ
  divisor : ℚ
  adds : ℕ → ℕ → ℕ → ℕ → ℕ → (ℕ → ℕ) → ℚ → ℚ → ℚ → List (ℕ × ℚ)

/-- Floyd–Steinberg error writes (divisor 16):
    right 7, below-left 3, below 5, below-right 1. -/
def fsAdds (w h x _y errIdx : ℕ) (rowStart : ℕ → ℕ) (errR errG errB : ℚ) :
    List (ℕ × ℚ) :=
  (if x + 1 < w then
    [(errIdx + 3, errR * 7), (errIdx + 4, errG * 7), (errIdx + 5, errB * 7)] else [])
  ++ (if _y + 1 < h then
    [(rowStart 1 + x * 3, errR * 3), (rowStart 1 + x * 3 + 1, errG * 3),
     (rowStart 1 + x * 3 + 2, errB * 3)] else [])
  ++ (if _y + 1 < h then
    [(rowStart 1 + (x + 1) * 3, errR * 5), (rowStart 1 + (x + 1) * 3 + 1, errG * 5),
     (rowStart 1 + (x + 1) * 3 + 2, errB * 5)] else [])
  ++ (if _y + 1 < h ∧ x + 1 < w then
    [(rowStart 1 + (x + 2) * 3, errR), (rowStart 1 + (x + 2) * 3 + 1, errG),
     (rowStart 1 + (x + 2) * 3 + 2, errB)] else [])

/-- Jarvis–Judice–Ninke error writes (divisor 48), two rows of carry. -/
def jjnAdds (w h x _y errIdx : ℕ) (rowStart : ℕ → ℕ) (errR errG errB : ℚ) :
    List (ℕ × ℚ) :=
  (if x + 1 < w then
    [(errIdx + 3, errR * 7), (errIdx + 4, errG * 7), (errIdx + 5, errB * 7)] else [])
  ++ (if x + 2 < w then
    [(errIdx + 6, errR * 5), (errIdx + 7, errG * 5), (errIdx + 8, errB * 5)] else [])
  ++ (if _y + 1 < h then
    (if 0 < x then
      [(rowStart 1 + (x + 2) * 3, errR * 3), (rowStart 1 + (x + 2) * 3 + 1, errG * 3),
       (rowStart 1 + (x + 2) * 3 + 2, errB * 3)] else [])
    ++ [(rowStart 1 + (x + 3) * 3, errR * 5), (rowStart 1 + (x + 3) * 3 + 1, errG * 5),
        (rowStart 1 + (x + 3) * 3 + 2, errB * 5)]
    ++ (if x + 1 < w then
      [(rowStart 1 + (x + 4) * 3, errR * 7), (rowStart 1 + (x + 4) * 3 + 1, errG * 7),
       (rowStart 1 + (x + 4) * 3 + 2, errB * 7)] else [])
    ++ (if x + 2 < w then
      [(rowStart 1 + (x + 5) * 3, errR * 5), (rowStart 1 + (x + 5) * 3 + 1, errG * 5),
       (rowStart 1 + (x + 5) * 3 + 2, errB * 5)] else [])
    ++ (if 0 < x then
      [(rowStart 1 + (x + 1) * 3, errR * 3), (rowStart 1 + (x + 1) * 3 + 1, errG * 3),
       (rowStart 1 + (x + 1) * 3 + 2, errB * 3)] else []) else [])
  ++ (if _y + 2 < h then
    (if 0 < x then
      [(rowStart 2 + (x + 2) * 3, errR), (rowStart 2 + (x + 2) * 3 + 1, errG),
       (rowStart 2 + (x + 2) * 3 + 2, errB)] else [])
    ++ [(rowStart 2 + (x + 3) * 3, errR * 3), (rowStart 2 + (x + 3) * 3 + 1, errG * 3),
        (rowStart 2 + (x + 3) * 3 + 2, errB * 3)]
    ++ (if x + 1 < w then
      [(rowStart 2 + (x + 4) * 3, errR * 5), (rowStart 2 + (x + 4) * 3 + 1, errG * 5),
       (rowStart 2 + (x + 4) * 3 + 2, errB * 5)] else [])
    ++ (if x + 2 < w then
      [(rowStart 2 + (x + 5) * 3, errR * 3), (rowStart 2 + (x + 5) * 3 + 1, errG * 3),
       (rowStart 2 + (x + 5) * 3 + 2, errB * 3)] else [])
    ++ (if 0 < x then
      [(rowStart 2 + (x + 1) * 3, errR), (rowStart 2 + (x + 1) * 3 + 1, errG),
       (rowStart 2 + (x + 1) * 3 + 2, errB)] else []) else [])

/-- Stucki error writes as implemented (divisor 42, single carried row). -/
def stuckiAdds (w h x _y errIdx : ℕ) (rowStart : ℕ → ℕ) (errR errG errB : ℚ) :
    List (ℕ × ℚ) :=
  (if x + 1 < w then
    [(errIdx + 3, errR * 8), (errIdx + 4, errG * 8), (errIdx + 5, errB * 8)] else [])
  ++ (if x + 2 < w then
    [(errIdx + 6, errR * 4), (errIdx + 7, errG * 4), (errIdx + 8, errB * 4)] else [])
  ++ (if _y + 1 < h then
    (if 0 < x then
      [(rowStart 1 + (x + 1) * 3, errR * 2), (rowStart 1 + (x + 1) * 3 + 1, errG * 2),
       (rowStart 1 + (x + 1) * 3 + 2, errB * 2)] else [])
    ++ [(rowStart 1 + (x + 2) * 3, errR * 4), (rowStart 1 + (x + 2) * 3 + 1, errG * 4),
        (rowStart 1 + (x + 2) * 3 + 2, errB * 4)]
    ++ (if x + 1 < w then
      [(rowStart 1 + (x + 3) * 3, errR * 8), (rowStart 1 + (x + 3) * 3 + 1, errG * 8),
       (rowStart 1 + (x + 3) * 3 + 2, errB * 8)] else [])
    ++ (if x + 2 < w then
      [(rowStart 1 + (x + 4) * 3, errR * 4), (rowStart 1 + (x + 4) * 3 + 1, errG * 4),
       (rowStart 1 + (x + 4) * 3 + 2, errB * 4)] else [])
    ++ (if x + 3 < w then
      [(rowStart 1 + (x + 5) * 3, errR * 2), (rowStart 1 + (x + 5) * 3 + 1, errG * 2),
       (rowStart 1 + (x + 5) * 3 + 2, errB * 2)] else []) else [])

/-- Sierra error writes as implemented (divisor 32, single carried row). -/
def sierraAdds (w h x _y errIdx : ℕ) (rowStart : ℕ → ℕ) (errR errG errB : ℚ) :
    List (ℕ × ℚ) :=
  (if x + 1 < w then
    [(errIdx + 3, errR * 5), (errIdx + 4, errG * 5), (errIdx + 5, errB * 5)] else [])
  ++ (if x + 2 < w then
    [(errIdx + 6, errR * 3), (errIdx + 7, errG * 3), (errIdx + 8, errB * 3)] else [])
  ++ (if _y + 1 < h then
    (if 0 < x then
      [(rowStart 1 + (x + 1) * 3, errR * 2), (rowStart 1 + (x + 1) * 3 + 1, errG * 2),
       (rowStart 1 + (x + 1) * 3 + 2, errB * 2)] else [])
    ++ [(rowStart 1 + (x + 2) * 3, errR * 4), (rowStart 1 + (x + 2) * 3 + 1, errG * 4),
        (rowStart 1 + (x + 2) * 3 + 2, errB * 4)]
    ++ (if x + 1 < w then
      [(rowStart 1 + (x + 3) * 3, errR * 5), (rowStart 1 + (x + 3) * 3 + 1, errG * 5),
       (rowStart 1 + (x + 3) * 3 + 2, errB * 5)] else [])
    ++ (if x + 2 < w then
      [(rowStart 1 + (x + 4) * 3, errR * 4), (rowStart 1 + (x + 4) * 3 + 1, errG * 4),
       (rowStart 1 + (x + 4) * 3 + 2, errB * 4)] else [])
    ++ (if x + 3 < w then
      [(rowStart 1 + (x + 5) * 3, errR * 2), (rowStart 1 + (x + 5) * 3 + 1, errG * 2),
       (rowStart 1 + (x + 5) * 3 + 2, errB * 2)] else []) else [])

def fsKernel : DiffKernel := ⟨1, 2, 16, fsAdds⟩
def jjnKernel : DiffKernel := ⟨3, 3, 48, jjnAdds⟩
def stuckiKernel : DiffKernel := ⟨2, 2, 42, stuckiAdds⟩
def sierraKernel : DiffKernel := ⟨2, 2, 32, sierraAdds⟩

/-- One pixel of an error-diffusion pass: add the accumulated error scaled
    by `intensity`, clamp, quantize (truncating the channel values), write
    the palette color, and distribute the residual divided by the kernel's
    divisor. -/
def diffuseStep (K : DiffKernel) (w h : ℕ) (palette : List Triple) (intensity : ℚ)
    (y cur : ℕ) (s : List ℚ × List ℚ × Cache) (x : ℕ) : List ℚ × List ℚ × Cache :=
  let rowLen := (w + 2 * K.pad) * 3
  let rowStart := fun k => ((cur + k) % K.rows) * rowLen
  let errIdx := cur * rowLen + (x + K.pad) * 3
  let idx := (y * w + x) * 4
  let r := clamp255 (getQ s.1 idx + getQ s.2.1 errIdx * intensity)
  let g := clamp255 (getQ s.1 (idx+1) + getQ s.2.1 (errIdx+1) * intensity)
  let b := clamp255 (getQ s.1 (idx+2) + getQ s.2.1 (errIdx+2) * intensity)
  let pc := findNearestColor (ratByte r) (ratByte g) (ratByte b) palette s.2.2
  let errR := (r - (pc.1.1 : ℚ)) / K.divisor
  let errG := (g - (pc.1.2.1 : ℚ)) / K.divisor
  let errB := (b - (pc.1.2.2 : ℚ)) / K.divisor
  (setRGB s.1 idx pc.1, applyAdds s.2.1 (K.adds w h x y errIdx rowStart errR errG errB), pc.2)

/-- One row: clear the carried row(s) about to be reused, scan the row
    left to right, rotate the ring of row buffers. -/
def diffuseRow (K : DiffKernel) (w h : ℕ) (palette : List Triple) (intensity : ℚ)
    (st : (List ℚ × List ℚ × Cache) × ℕ) (y : ℕ) : (List ℚ × List ℚ × Cache) × ℕ :=
  let cur := st.2
  let rowLen := (w + 2 * K.pad) * 3
  let err1 := (List.range (K.rows - 1)).foldl
    (fun e k => clearRange e (((cur + k + 1) % K.rows) * rowLen) rowLen) st.1.2.1
  let s := (List.range w).foldl (diffuseStep K w h palette intensity y cur) (st.1.1, err1, st.1.2.2)
  (s, (cur + 1) % K.rows)

/-- A full error-diffusion pass over the image. -/
def diffuseCore (K : DiffKernel) (data : List ℚ) (w h : ℕ) (palette : List Triple)
    (intensity : ℚ) (c : Cache) : List ℚ × Cache :=
  let rowLen := (w + 2 * K.pad) * 3
  let r := (List.range h).foldl (diffuseRow K w h palette intensity)
    ((data, List.replicate (rowLen * K.rows) (0 : ℚ), c), 0)
  (r.1.1, r.1.2.2)

def applyFloydSteinbergCore (data : List ℚ) (w h : ℕ) (palette : List Triple)
    (intensity : ℚ) (c : Cache) : List ℚ × Cache :=
  diffuseCore fsKernel data w h palette intensity c

def applyJJNCore (data : List ℚ) (w h : ℕ) (palette : List Triple)
    (intensity : ℚ) (c : Cache) : List ℚ × Cache :=
  diffuseCore jjnKernel data w h palette intensity c

def applyStuckiCore (data : List ℚ) (w h : ℕ) (palette : List Triple)
    (intensity : ℚ) (c : Cache) : List ℚ × Cache :=
  diffuseCore stuckiKernel data w h palette intensity c

def applySierraCore (data : List ℚ) (w h : ℕ) (palette : List Triple)
    (intensity : ℚ) (c : Cache) : List ℚ × Cache :=
  diffuseCore sierraKernel data w h palette intensity c

/-! ## Resolution-scaled fast path -/

inductive DitherType where
  | bayer
  | floydSteinberg
  | jjn
  | stucki
  | sierra
deriving DecidableEq

/-- Dimensions of the reduced working buffer: `max(2, floor(dim·resolution))`. -/
def scaledDim (d : ℕ) (resolution : ℚ) : ℕ := max 2 (⌊(d : ℚ) * resolution⌋).toNat

/-- Accumulate one source pixel into the running (r, g, b, a, count). -/
def cellPixelStep (data : List ℚ) (w py : ℕ) (acc : ℚ × ℚ × ℚ × ℚ × ℕ)
    (px : ℕ) : ℚ × ℚ × ℚ × ℚ × ℕ :=
  let idx := (py * w + px) * 4
  (acc.1 + getQ data idx, acc.2.1 + getQ data (idx+1), acc.2.2.1 + getQ data (idx+2),
    acc.2.2.2.1 + getQ data (idx+3), acc.2.2.2.2 + 1)

/-- Accumulate one source row of the cell's rectangle. -/
def cellRowStep (data : List ℚ) (w x0 x1 : ℕ) (acc : ℚ × ℚ × ℚ × ℚ × ℕ)
    (py : ℕ) : ℚ × ℚ × ℚ × ℚ × ℕ :=
  (List.range' x0 (x1 - x0)).foldl (cellPixelStep data w py) acc

/-- Accumulate (r, g, b, a, count) over the source rectangle of one
    destination cell. -/
def cellAccum (data : List ℚ) (w x0 x1 y0 y1 : ℕ) : ℚ × ℚ × ℚ × ℚ × ℕ :=
  (List.range' y0 (y1 - y0)).foldl (cellRowStep data w x0 x1) (0, 0, 0, 0, 0)

/-- Left edge (inclusive) of the source range of destination index `x`. -/
def cell0 (x : ℕ) (scale : ℚ) : ℕ := (⌊(x : ℚ) * scale⌋).toNat

/-- Right edge (exclusive) of the source range of destination index `x`. -/
def cell1 (x : ℕ) (scale : ℚ) : ℕ := (⌊((x : ℚ) + 1) * scale⌋).toNat

/-- Write one downsampled cell (the channel-wise average of its source
    rectangle) into the scaled buffer. -/
def downsampleCell (data : List ℚ) (w sw : ℕ) (scaleX scaleY : ℚ)
    (buf : List ℚ) (x y : ℕ) : List ℚ :=
  let a := cellAccum data w (cell0 x scaleX) (cell1 x scaleX) (cell0 y scaleY) (cell1 y scaleY)
  let cnt : ℚ := (a.2.2.2.2 : ℕ)
  let si := (y * sw + x) * 4
  (((buf.set si (u8Store (a.1 / cnt))).set (si+1) (u8Store (a.2.1 / cnt))).set
      (si+2) (u8Store (a.2.2.1 / cnt))).set (si+3) (u8Store (a.2.2.2.1 / cnt))

/-- Box downsample of the whole framebuffer into a fresh scaled buffer. -/
def downsampleBuf (data : List ℚ) (w sw sh : ℕ) (scaleX scaleY : ℚ) : List ℚ :=
  (List.range sh).foldl (fun b y =>
    (List.range sw).foldl (fun b x => downsampleCell data w sw scaleX scaleY b x y) b)
    (List.replicate (sw * sh * 4) 0)

/-- Copy all four channels of one pixel from `src` into `dst`. -/
def copyPixel (dst : List ℚ) (dstIdx : ℕ) (src : List ℚ) (srcIdx : ℕ) : List ℚ :=
  (((dst.set dstIdx (getQ src srcIdx)).set (dstIdx+1) (getQ src (srcIdx+1))).set
      (dstIdx+2) (getQ src (srcIdx+2))).set (dstIdx+3) (getQ src (srcIdx+3))

/-- Nearest-neighbor upsample of one destination pixel. -/
def upsamplePixel (scaled : List ℚ) (w sw : ℕ) (scaleX scaleY : ℚ) (y : ℕ)
    (data : List ℚ) (x : ℕ) : List ℚ :=
  let srcX := (⌊(x : ℚ) / scaleX⌋).toNat
  let srcY := (⌊(y : ℚ) / scaleY⌋).toNat
  copyPixel data ((y * w + x) * 4) scaled ((srcY * sw + srcX) * 4)

/-- Nearest-neighbor upsample back over the original framebuffer. -/
def upsample (data scaled : List ℚ) (w h sw : ℕ) (scaleX scaleY : ℚ) : List ℚ :=
  (List.range h).foldl (fun d y =>
    (List.range w).foldl (upsamplePixel scaled w sw scaleX scaleY y) d) data

/-- Dispatch of the full-resolution pass of each algorithm.  The source
    re-enters the entry points with `resolution = 1.0`, which immediately
    runs the full-resolution pass; the cores are called directly here (see
    `runDither_at_one`). -/
def runCore (t : DitherType) (data : List ℚ) (w h : ℕ) (palette : List Triple)
    (intensity : ℚ) (c : Cache) : List ℚ × Cache :=
  match t with
  | .bayer => applyBayerCore data w palette intensity c
  | .floydSteinberg => applyFloydSteinbergCore data w h palette intensity c
  | .jjn => applyJJNCore data w h palette intensity c
  | .stucki => applyStuckiCore data w h palette intensity c
  | .sierra => applySierraCore data w h palette intensity c

/-- `applyDitheringAtLowerResolution`: box-average downsample, dither at the
    scaled size at the caller's intensity, nearest-neighbor upsample. -/
def applyDitheringAtLowerResolution (data : List ℚ) (w h : ℕ) (palette : List Triple)
    (intensity resolution : ℚ) (t : DitherType) (c : Cache) : List ℚ × Cache :=
  let sw := scaledDim w resolution
  let sh := scaledDim h resolution
  let scaleX := (w : ℚ) / sw
  let scaleY := (h : ℚ) / sh
  let scaled := downsampleBuf data w sw sh scaleX scaleY
  let r := runCore t scaled sw sh palette intensity c
  (upsample data r.1 w h sw scaleX scaleY, r.2)

/-! ## The five dithering entry points -/

def applyBayerDithering (data : List ℚ) (w h : ℕ) (palette : List Triple)
    (intensity resolution : ℚ) (c : Cache) : List ℚ × Cache :=
  if resolution < 1 then
    applyDitheringAtLowerResolution data w h palette intensity resolution .bayer c
  else applyBayerCore data w palette intensity c

def applyFloydSteinbergDithering (data : List ℚ) (w h : ℕ) (palette : List Triple)
    (intensity resolution : ℚ) (c : Cache) : List ℚ × Cache :=
  if resolution < 1 then
    applyDitheringAtLowerResolution data w h palette intensity resolution .floydSteinberg c
  else applyFloydSteinbergCore data w h palette intensity c

def applyJJNDithering (data : List ℚ) (w h : ℕ) (palette : List Triple)
    (intensity resolution : ℚ) (c : Cache) : List ℚ × Cache :=
  if resolution < 1 then
    applyDitheringAtLowerResolution data w h palette intensity resolution .jjn c
  else applyJJNCore data w h palette intensity c

def applyStuckiDithering (data : List ℚ) (w h : ℕ) (palette : List Triple)
    (intensity resolution : ℚ) (c : Cache) : List ℚ × Cache :=
  if resolution < 1 then
    applyDitheringAtLowerResolution data w h palette intensity resolution .stucki c
  else applyStuckiCore data w h palette intensity c

def applySierraDithering (data : List ℚ) (w h : ℕ) (palette : List Triple)
    (intensity resolution : ℚ) (c : Cache) : List ℚ × Cache :=
  if resolution < 1 then
    applyDitheringAtLowerResolution data w h palette intensity resolution .sierra c
  else applySierraCore data w h palette intensity c

/-- The five entry points, indexed by algorithm. -/
def runDither (t : DitherType) (data : List ℚ) (w h : ℕ) (palette : List Triple)
    (intensity resolution : ℚ) (c : Cache) : List ℚ × Cache :=
  match t with
  | .bayer => applyBayerDithering data w h palette intensity resolution c
  | .floydSteinberg => applyFloydSteinbergDithering data w h palette intensity resolution c
  | .jjn => applyJJNDithering data w h palette intensity resolution c
  | .stucki => applyStuckiDithering data w h palette intensity resolution c
  | .sierra => applySierraDithering data w h palette intensity resolution c

/-! ## `reduceColorsTopalette` -/

/-- Map the pixel at byte index `idx` to its nearest palette color. -/
def reducePixel (palette : List Triple) (s : List ℚ × Cache) (idx : ℕ) : List ℚ × Cache :=
  let pc := findNearestColor (ratByte (getQ s.1 idx)) (ratByte (getQ s.1 (idx+1)))
    (ratByte (getQ s.1 (idx+2))) palette s.2
  (setRGB s.1 idx pc.1, pc.2)

/-- `reduceColorsTopalette`: clear the cache at the start of the frame, then
    map every pixel to its nearest palette color, in chunks of
    `min(64, data.length / 4)` pixels.  (The chunk arithmetic is written for
    a buffer whose length is a multiple of 4, which every framebuffer is.) -/
def reduceColorsTopalette (data : List ℚ) (palette : List Triple) (c : Cache) :
    List ℚ × Cache :=
  let cleared : Cache := []
  let chunkSize := min 64 (data.length / 4)
  if chunkSize = 0 then (data, cleared) else
  (List.range ((data.length + 4 * chunkSize - 1) / (4 * chunkSize))).foldl (fun s oi =>
    (List.range chunkSize).foldl (fun s j =>
      let idx := oi * (4 * chunkSize) + j * 4
      if idx < data.length then reducePixel palette s idx else s) s) (data, cleared)

/-! ## Export scheduler -/

/-- The dithering-relevant part of `AnimationSettings`. -/
structure ExportDitherSettings where
  ditheringEnabled : Bool
  ditheringType : DitherType
  ditheringIntensity : ℚ
  ditheringResolution : ℚ

/-- The per-frame quantization stage, written identically in the GIF frame
    loop and in the video capture loop: `'bayer'` selects
    `applyBayerDithering`, every other configured type falls into the `else`
    branch and runs `applyFloydSteinbergDithering`; with dithering disabled
    the frame is palette-reduced instead. -/
def exportFrameQuantize (s : ExportDitherSettings) (data : List ℚ) (w h : ℕ)
    (palette : List Triple) (c : Cache) : List ℚ × Cache :=
  if s.ditheringEnabled then
    (if s.ditheringType = DitherType.bayer then
      applyBayerDithering data w h palette s.ditheringIntensity s.ditheringResolution c
    else
      applyFloydSteinbergDithering data w h palette s.ditheringIntensity s.ditheringResolution c)
  else reduceColorsTopalette data palette c

/-- Frame index implied by the elapsed wall-clock milliseconds:
    `Math.floor((elapsed / 1000) * exportFps)`. -/
def frameIndexAt (fps elapsed : ℕ) : ℕ := elapsed * fps / 1000

/-- One capture tick: capture only if the implied frame index has advanced
    past the last captured index (`currentFrameNumber <= capturedFrames`
    returns early). -/
def captureTick (fps : ℕ) (s : ℕ × List ℕ) (elapsed : ℕ) : ℕ × List ℕ :=
  let idx := frameIndexAt fps elapsed
  if idx ≤ s.1 then s else (idx, s.2 ++ [idx])

/-- Run the capture loop over the tick times of one export run;
    `capturedFrames` starts at 0. -/
def captureRun (fps : ℕ) (ticks : List ℕ) : ℕ × List ℕ :=
  ticks.foldl (captureTick fps) (0, [])

/-- The frame indices captured, in capture order, over one export run. -/
def captureIndices (fps : ℕ) (ticks : List ℕ) : List ℕ := (captureRun fps ticks).2

/-- The timing-relevant part of `AnimationSettings`. -/
structure ExportTimingSettings where
  loopDuration : ℚ
  exportLoopCount : ℚ
  exportFps : ℚ

def targetDuration (s : ExportTimingSettings) : ℚ := s.loopDuration * s.exportLoopCount

def targetFrameCount (s : ExportTimingSettings) : ℤ := round (targetDuration s * s.exportFps)

def exactDurationMs (s : ExportTimingSettings) : ℚ :=
  ((targetFrameCount s : ℚ) / s.exportFps) * 1000

def frameIntervalMs (s : ExportTimingSettings) : ℚ := 1000 / s.exportFps

def stopDurationMs (s : ExportTimingSettings) : ℚ :=
  exactDurationMs s - frameIntervalMs s * (1/10)

/-- Crop rectangle (width, height, x, y) computed by `exportVideo` from the
    source (screen) size and the requested export size. -/
def cropRect (screenWidth screenHeight exportWidth exportHeight : ℚ) : ℚ × ℚ × ℚ × ℚ :=
  let exportAspectRatio := exportWidth / exportHeight
  let screenAspectRatio := screenWidth / screenHeight
  if exportAspectRatio > screenAspectRatio then
    (screenWidth, screenWidth / exportAspectRatio, 0,
      (screenHeight - screenWidth / exportAspectRatio) / 2)
  else
    (screenHeight * exportAspectRatio, screenHeight,
      (screenWidth - screenHeight * exportAspectRatio) / 2, 0)

/-- The crop rectangle exactly as the claim words it. -/
def cropRectSpec (sw sh ew eh : ℚ) : ℚ × ℚ × ℚ × ℚ :=
  if ew / eh > sw / sh then (sw, sw / (ew / eh), 0, (sh - sw / (ew / eh)) / 2)
  else (sh * (ew / eh), sh, (sw - sh * (ew / eh)) / 2, 0)

/-- The sequence of values passed to `setExportProgress` during one GIF
    export run: the reset at export start, one report `i / targetFrameCount`
    per generated frame, one report `0.5 + p·0.5` per encoder progress
    event, and the reset in the `finished` handler. -/
def gifProgressReports (targetFrames : ℕ) (encoderEvents : List ℚ) : List ℚ :=
  0 :: ((List.range targetFrames).map (fun i => (i : ℚ) / targetFrames)
    ++ encoderEvents.map (fun p => 1/2 + p * (1/2)) ++ [0])

/-! ## Definitions written from the claim/spec wording (for refinement) -/

/-- Modelled from the claim: the channel-wise mean of the source pixels of
    one destination cell. -/
def specCellAvg (data : List ℚ) (w x0 x1 y0 y1 ch : ℕ) : ℚ :=
  (((List.range' y0 (y1 - y0)).map (fun py =>
      ((List.range' x0 (x1 - x0)).map (fun px =>
        getQ data ((py * w + px) * 4 + ch))).sum)).sum)
    / (((y1 - y0) * (x1 - x0) : ℕ) : ℚ)

/-- Modelled from the claim: one destination cell set to the channel-wise
    means of its source rectangle. -/
def specDownsampleCell (data : List ℚ) (w sw : ℕ) (scaleX scaleY : ℚ)
    (buf : List ℚ) (x y : ℕ) : List ℚ :=
  let x0 := cell0 x scaleX
  let x1 := cell1 x scaleX
  let y0 := cell0 y scaleY
  let y1 := cell1 y scaleY
  let si := (y * sw + x) * 4
  (((buf.set si (u8Store (specCellAvg data w x0 x1 y0 y1 0))).set
      (si+1) (u8Store (specCellAvg data w x0 x1 y0 y1 1))).set
      (si+2) (u8Store (specCellAvg data w x0 x1 y0 y1 2))).set
      (si+3) (u8Store (specCellAvg data w x0 x1 y0 y1 3))

/-- Modelled from the claim: box downsample by channel-wise averaging. -/
def specDownsampleBuf (data : List ℚ) (w sw sh : ℕ) (scaleX scaleY : ℚ) : List ℚ :=
  (List.range sh).foldl (fun b y =>
    (List.range sw).foldl (fun b x => specDownsampleCell data w sw scaleX scaleY b x y) b)
    (List.replicate (sw * sh * 4) 0)

/-- Modelled from the claim (amended): `scaledDim = max(2, floor(dim·res))`,
    box-average downsample, run the requested dithering entry point at the
    caller's intensity with resolution forced to 1.0, nearest-neighbor
    upsample back to the original dimensions. -/
def specLowerResolution (t : DitherType) (data : List ℚ) (w h : ℕ)
    (palette : List Triple) (intensity resolution : ℚ) (c : Cache) : List ℚ × Cache :=
  let sw := scaledDim w resolution
  let sh := scaledDim h resolution
  let scaled := specDownsampleBuf data w sw sh ((w : ℚ) / sw) ((h : ℚ) / sh)
  let r := runDither t scaled sw sh palette intensity 1 c
  (upsample data r.1 w h sw ((w : ℚ) / sw) ((h : ℚ) / sh), r.2)

/-- Modelled from the claim verbatim: the scaled pass is run "at full
    intensity", i.e. intensity 1.0. -/
def specLowerResolutionFullIntensity (t : DitherType) (data : List ℚ) (w h : ℕ)
    (palette : List Triple) (resolution : ℚ) (c : Cache) : List ℚ × Cache :=
  let sw := scaledDim w resolution
  let sh := scaledDim h resolution
  let scaled := specDownsampleBuf data w sw sh ((w : ℚ) / sw) ((h : ℚ) / sh)
  let r := runDither t scaled sw sh palette 1 1 c
  (upsample data r.1 w h sw ((w : ℚ) / sw) ((h : ℚ) / sh), r.2)

/-! ## Invariants used in the proofs -/

/-- Pixel `p` of `data` carries the RGB values of some palette entry. -/
def pixelIsPal (data : List ℚ) (p : ℕ) (pal : List Triple) : Prop :=
  ∃ q ∈ pal, getQ data (p * 4) = (q.1 : ℚ) ∧ getQ data (p * 4 + 1) = (q.2.1 : ℚ) ∧
    getQ data (p * 4 + 2) = (q.2.2 : ℚ)

/-- Loop invariant of every dithering pass: length preserved, cache values
    members of the palette, alpha bytes untouched, and the first `n` pixels
    already quantized to palette members. -/
def PixelInv (d0 : List ℚ) (pal : List Triple) (n : ℕ) (data : List ℚ) (c : Cache) : Prop :=
  data.length = d0.length ∧ (∀ v ∈ cacheVals c, v ∈ pal) ∧
    (∀ j, j % 4 = 3 → getQ data j = getQ d0 j) ∧
    (∀ p, p < n → pixelIsPal data p pal)

/-- Invariant of the upsample loop: length preserved, cache as given, and
    the first `n` destination pixels quantized to palette members with
    bounded alpha. -/
def UpsampleInv (d0 : List ℚ) (pal : List Triple) (n : ℕ) (data : List ℚ) : Prop :=
  data.length = d0.length ∧
    (∀ p, p < n → pixelIsPal data p pal ∧ 0 ≤ getQ data (p * 4 + 3) ∧
      getQ data (p * 4 + 3) ≤ 255)

/-- Every cell of the buffer is a byte value in [0,255]. -/
def Bounded (l : List ℚ) : Prop := ∀ j, 0 ≤ getQ l j ∧ getQ l j ≤ 255

/-! ## Theorems -/

theorem getQ_nil (i : ℕ) : getQ [] i = 0 := by cases i <;> rfl

theorem getQ_set_ne (l : List ℚ) (i j : ℕ) (v : ℚ) (h : i ≠ j) :
    getQ (l.set i v) j = getQ l j := by
  induction l generalizing i j with
  | nil => simp [List.set]
  | cons a t ih =>
    cases i with
    | zero =>
      cases j with
      | zero => exact absurd rfl h
      | succ j => simp [List.set, getQ]
    | succ i =>
      cases j with
      | zero => simp [List.set, getQ]
      | succ j =>
        simp only [List.set, getQ, List.get?]
        exact ih i j (fun hh => h (by rw [hh]))

theorem getQ_set_self (l : List ℚ) (i : ℕ) (v : ℚ) (h : i < l.length) :
    getQ (l.set i v) i = v := by
  induction l generalizing i with
  | nil => simp at h
  | cons a t ih =>
    cases i with
    | zero => simp [List.set, getQ]
    | succ i =>
      simp only [List.set, getQ, List.get?]
      exact ih i (by simpa using h)

theorem getQ_set_cases (l : List ℚ) (i j : ℕ) (v : ℚ) :
    getQ (l.set i v) j = getQ l j ∨ getQ (l.set i v) j = v := by
  by_cases h : i = j
  · subst h
    by_cases hl : i < l.length
    · exact Or.inr (getQ_set_self l i v hl)
    · left; rw [List.set_eq_of_length_le (by omega)]
  · exact Or.inl (getQ_set_ne l i j v h)

theorem clamp255_nonneg (v : ℚ) : 0 ≤ clamp255 v := le_max_left 0 _

theorem clamp255_le (v : ℚ) : clamp255 v ≤ 255 := by
  have : min 255 v ≤ 255 := min_le_left _ _
  simp only [clamp255]
  exact max_le (by norm_num) this

theorem roundHalfEven_nonneg (q : ℚ) (h : 0 ≤ q) : 0 ≤ roundHalfEven q := by
  unfold roundHalfEven
  have hf : (0:ℤ) ≤ ⌊q⌋ := Int.le_floor.mpr (by exact_mod_cast h)
  split
  · split <;> omega
  · have h2 : ⌊q⌋ ≤ round q := by
      rw [round_eq]
      exact Int.floor_le_floor (by linarith)
    omega

theorem roundHalfEven_le (q : ℚ) (h : q ≤ 255) : roundHalfEven q ≤ 255 := by
  unfold roundHalfEven
  split
  · rename_i hhalf
    have hq : q - (⌊q⌋ : ℚ) = 1/2 := hhalf
    have hlt : (⌊q⌋ : ℚ) < 255 := by
      have : q = (⌊q⌋ : ℚ) + 1/2 := by linarith
      nlinarith
    have : ⌊q⌋ < 255 := by exact_mod_cast hlt
    split <;> omega
  · rw [round_eq]
    have h1 : ⌊q + 1/2⌋ ≤ ⌊(255 : ℚ) + 1/2⌋ := Int.floor_le_floor (by linarith)
    have h2 : ⌊(255 : ℚ) + 1/2⌋ = 255 := by
      rw [show (255 : ℚ) + 1/2 = 1/2 + (255 : ℤ) by norm_num, Int.floor_add_int]
      simp [Int.floor_eq_zero_iff, Set.mem_Ico]
      norm_num
    omega

theorem u8Store_bounds (q : ℚ) : 0 ≤ u8Store q ∧ u8Store q ≤ 255 := by
  unfold u8Store
  constructor
  · have := roundHalfEven_nonneg (clamp255 q) (clamp255_nonneg q)
    exact_mod_cast this
  · have := roundHalfEven_le (clamp255 q) (clamp255_le q)
    exact_mod_cast this

theorem nearestScan_acc_mem (r g b : ℕ) (pal : List Triple) :
    ∀ (l : List Triple) (acc : Option ℤ × Triple),
      l.Sublist pal → (acc.2 ∈ pal) → ((l.foldl (scanStep r g b) acc).2 ∈ pal) := by
  intro l
  induction l with
  | nil => intro acc _ h; simpa using h
  | cons p t ih =>
    intro acc hsub hacc
    simp only [List.foldl_cons]
    apply ih _ (List.sublist_of_cons_sublist hsub)
    unfold scanStep
    split
    · exact hsub.subset (List.mem_cons_self p t)
    · exact hacc

theorem nearestScan_mem (r g b : ℕ) (pal : List Triple) (h : pal ≠ []) :
    nearestScan r g b pal ∈ pal := by
  unfold nearestScan
  apply nearestScan_acc_mem r g b pal pal _ (List.Sublist.refl pal)
  cases pal with
  | nil => exact absurd rfl h
  | cons p t => exact List.mem_cons_self p t

theorem scanGood_step (r g b : ℕ) (pre : List Triple) (acc : Option ℤ × Triple)
    (p : Triple) (h : ScanGood r g b pre acc) :
    ScanGood r g b (pre ++ [p]) (scanStep r g b acc p) := by
  obtain ⟨m, t⟩ := acc
  cases m with
  | none =>
    have hpre : pre = [] := h
    subst hpre
    simp only [scanStep, distLt, if_pos]
    refine ⟨rfl, ⟨[], [], rfl, by simp⟩, ?_⟩
    intro q hq
    simp at hq
    subst hq
    exact le_refl _
  | some d =>
    obtain ⟨hd, ⟨l1, l2, hdec, hstrict⟩, hmin⟩ := h
    by_cases hlt : sqDist r g b p < d
    · unfold scanStep
      rw [if_pos (by simp [distLt, hlt])]
      refine ⟨rfl, ⟨pre, [], by simp, ?_⟩, ?_⟩
      · intro q hq
        exact lt_of_lt_of_le hlt (hmin q hq)
      · intro q hq
        rcases List.mem_append.mp hq with hq | hq
        · exact le_of_lt (lt_of_lt_of_le hlt (hmin q hq))
        · simp at hq; subst hq; exact le_refl _
    · unfold scanStep
      rw [if_neg (by simp [distLt, hlt])]
      refine ⟨hd, ⟨l1, l2 ++ [p], by rw [hdec]; simp, hstrict⟩, ?_⟩
      intro q hq
      rcases List.mem_append.mp hq with hq | hq
      · exact hmin q hq
      · simp at hq; subst hq; exact le_of_not_lt hlt

theorem scanGood_fold (r g b : ℕ) :
    ∀ (l pre : List Triple) (acc : Option ℤ × Triple), ScanGood r g b pre acc →
      ScanGood r g b (pre ++ l) (l.foldl (scanStep r g b) acc) := by
  intro l
  induction l with
  | nil => intro pre acc h; simpa using h
  | cons p t ih =>
    intro pre acc h
    have h1 := scanGood_step r g b pre acc p h
    have h2 := ih (pre ++ [p]) _ h1
    simpa using h2

/-- `nearestScan` returns the first palette entry of minimal squared
    distance: all entries before it are strictly farther, all entries are
    at least as far. -/
theorem nearestScan_spec (r g b : ℕ) (pal : List Triple) (h : pal ≠ []) :
    (∃ l1 l2, pal = l1 ++ nearestScan r g b pal :: l2 ∧
        ∀ q ∈ l1, sqDist r g b (nearestScan r g b pal) < sqDist r g b q) ∧
      (∀ q ∈ pal, sqDist r g b (nearestScan r g b pal) ≤ sqDist r g b q) := by
  have hg := scanGood_fold r g b pal [] (none, pal.headD ((0,0,0) : Triple)) rfl
  simp only [List.nil_append] at hg
  unfold nearestScan
  rcases hres : pal.foldl (scanStep r g b) (none, pal.headD ((0,0,0) : Triple)) with ⟨m, t⟩
  rw [hres] at hg
  cases m with
  | none =>
    exact absurd hg h
  | some d =>
    obtain ⟨hd, hdec, hmin⟩ := hg
    constructor
    · obtain ⟨l1, l2, he, hs⟩ := hdec
      exact ⟨l1, l2, he, fun q hq => hd ▸ hs q hq⟩
    · intro q hq
      exact hd ▸ hmin q hq

theorem cacheVals_insert (c : Cache) (k : ℕ) (v v' : Triple)
    (h : v' ∈ cacheVals (cacheInsert c k v)) : v' = v ∨ v' ∈ cacheVals c := by
  unfold cacheInsert cacheVals at h
  rw [List.map_append] at h
  rcases List.mem_append.mp h with h | h
  · right
    unfold cacheVals
    split at h
    · exact (List.map_subset Prod.snd (List.drop_subset 1 c)) h
    · exact h
  · left; simpa using h

theorem cacheLookup_mem (c : Cache) (k : ℕ) (v : Triple)
    (h : cacheLookup c k = some v) : v ∈ cacheVals c := by
  unfold cacheLookup at h
  rcases Option.map_eq_some'.mp h with ⟨e, he, hev⟩
  subst hev
  exact List.mem_map_of_mem Prod.snd (List.mem_of_find?_eq_some he)

theorem findNearestColor_mem (r g b : ℕ) (pal : List Triple) (c : Cache)
    (h : pal ≠ []) (hc : ∀ v ∈ cacheVals c, v ∈ pal) :
    (findNearestColor r g b pal c).1 ∈ pal ∧
      ∀ v ∈ cacheVals (findNearestColor r g b pal c).2, v ∈ pal := by
  unfold findNearestColor
  cases hl : cacheLookup c (cacheKey r g b) with
  | some v =>
    exact ⟨hc v (cacheLookup_mem c _ v hl), hc⟩
  | none =>
    refine ⟨nearestScan_mem r g b pal h, ?_⟩
    intro v hv
    rcases cacheVals_insert c _ _ v hv with hv | hv
    · subst hv; exact nearestScan_mem r g b pal h
    · exact hc v hv

theorem cacheLookup_insert_self (c : Cache) (k : ℕ) (v : Triple)
    (h : cacheLookup c k = none) : cacheLookup (cacheInsert c k v) k = some v := by
  unfold cacheLookup at h ⊢
  have hall : ∀ e ∈ c, ¬ (e.1 = k) := by
    intro e he
    have := List.find?_eq_none.mp (by
      cases hf : c.find? (fun e => e.1 = k) with
      | none => rfl
      | some e => rw [hf] at h; simp at h) e he
    simpa using this
  unfold cacheInsert
  have hpref : ∀ e ∈ (if MAX_CACHE_SIZE ≤ c.length then c.drop 1 else c), ¬ ((fun e => decide (e.1 = k)) e = true) := by
    intro e he
    have hec : e ∈ c := by
      split at he
      · exact List.drop_subset 1 c he
      · exact he
    simp only [decide_eq_true_eq]
    exact hall e hec
  rw [List.find?_append, List.find?_eq_none.mpr hpref]
  simp

/-- A second call with the same inputs, against the cache produced by the
    first call, returns the identical result. -/
theorem findNearestColor_idem (r g b : ℕ) (pal : List Triple) (c : Cache) :
    (findNearestColor r g b pal ((findNearestColor r g b pal c).2)).1 =
      (findNearestColor r g b pal c).1 := by
  unfold findNearestColor
  cases hl : cacheLookup c (cacheKey r g b) with
  | some v => simp [hl]
  | none => simp [cacheLookup_insert_self c _ _ hl]


/-! ### Buffer lemmas -/

theorem setRGB_length (data : List ℚ) (idx : ℕ) (p : Triple) :
    (setRGB data idx p).length = data.length := by
  simp [setRGB]

theorem setRGB_getQ_ne (data : List ℚ) (idx j : ℕ) (p : Triple)
    (h0 : j ≠ idx) (h1 : j ≠ idx + 1) (h2 : j ≠ idx + 2) :
    getQ (setRGB data idx p) j = getQ data j := by
  unfold setRGB
  rw [getQ_set_ne _ _ _ _ (fun hh => h2 hh.symm),
    getQ_set_ne _ _ _ _ (fun hh => h1 hh.symm),
    getQ_set_ne _ _ _ _ (fun hh => h0 hh.symm)]

theorem setRGB_getQ_r (data : List ℚ) (idx : ℕ) (p : Triple) (h : idx + 2 < data.length) :
    getQ (setRGB data idx p) idx = (p.1 : ℚ) := by
  unfold setRGB
  rw [getQ_set_ne _ _ _ _ (by omega), getQ_set_ne _ _ _ _ (by omega),
    getQ_set_self _ _ _ (by omega)]

theorem setRGB_getQ_g (data : List ℚ) (idx : ℕ) (p : Triple) (h : idx + 2 < data.length) :
    getQ (setRGB data idx p) (idx + 1) = (p.2.1 : ℚ) := by
  unfold setRGB
  rw [getQ_set_ne _ _ _ _ (by omega), getQ_set_self _ _ _ (by simp; omega)]

theorem setRGB_getQ_b (data : List ℚ) (idx : ℕ) (p : Triple) (h : idx + 2 < data.length) :
    getQ (setRGB data idx p) (idx + 2) = (p.2.2 : ℚ) := by
  unfold setRGB
  rw [getQ_set_self _ _ _ (by simp; omega)]

theorem copyPixel_length (dst : List ℚ) (dstIdx : ℕ) (src : List ℚ) (srcIdx : ℕ) :
    (copyPixel dst dstIdx src srcIdx).length = dst.length := by
  simp [copyPixel]

theorem copyPixel_getQ_ne (dst : List ℚ) (dstIdx j : ℕ) (src : List ℚ) (srcIdx : ℕ)
    (h0 : j ≠ dstIdx) (h1 : j ≠ dstIdx + 1) (h2 : j ≠ dstIdx + 2) (h3 : j ≠ dstIdx + 3) :
    getQ (copyPixel dst dstIdx src srcIdx) j = getQ dst j := by
  unfold copyPixel
  rw [getQ_set_ne _ _ _ _ (fun hh => h3 hh.symm), getQ_set_ne _ _ _ _ (fun hh => h2 hh.symm),
    getQ_set_ne _ _ _ _ (fun hh => h1 hh.symm), getQ_set_ne _ _ _ _ (fun hh => h0 hh.symm)]

theorem copyPixel_getQ (dst : List ℚ) (dstIdx : ℕ) (src : List ℚ) (srcIdx : ℕ)
    (h : dstIdx + 3 < dst.length) (k : ℕ) (hk : k < 4) :
    getQ (copyPixel dst dstIdx src srcIdx) (dstIdx + k) = getQ src (srcIdx + k) := by
  unfold copyPixel
  interval_cases k
  · rw [getQ_set_ne _ _ _ _ (by omega), getQ_set_ne _ _ _ _ (by omega),
      getQ_set_ne _ _ _ _ (by omega)]
    simpa using getQ_set_self _ _ _ (by omega)
  · rw [getQ_set_ne _ _ _ _ (by omega), getQ_set_ne _ _ _ _ (by omega),
      getQ_set_self _ _ _ (by simp; omega)]
  · rw [getQ_set_ne _ _ _ _ (by omega), getQ_set_self _ _ _ (by simp; omega)]
  · rw [getQ_set_self _ _ _ (by simp; omega)]

theorem applyAdds_length (adds : List (ℕ × ℚ)) (buf : List ℚ) :
    (applyAdds buf adds).length = buf.length := by
  induction adds generalizing buf with
  | nil => rfl
  | cons a t ih =>
    unfold applyAdds at ih ⊢
    rw [List.foldl_cons, ih]
    simp

theorem clearRange_length (len : ℕ) (buf : List ℚ) (start : ℕ) :
    (clearRange buf start len).length = buf.length := by
  unfold clearRange
  induction len generalizing buf with
  | zero => rfl
  | succ n ih =>
    rw [List.range_succ, List.foldl_append]
    simp [ih]

/-! ### The write-one-pixel invariant step -/

theorem pixelWrite_inv (d0 : List ℚ) (pal : List Triple) (n : ℕ) (data : List ℚ)
    (c : Cache) (r g b : ℕ) (hpal : pal ≠ []) (hlen : n * 4 + 3 ≤ data.length)
    (hinv : PixelInv d0 pal n data c) :
    PixelInv d0 pal (n + 1) (setRGB data (n * 4) (findNearestColor r g b pal c).1)
      (findNearestColor r g b pal c).2 := by
  obtain ⟨hl, hc, ha, hp⟩ := hinv
  obtain ⟨hmem, hcache⟩ := findNearestColor_mem r g b pal c hpal hc
  refine ⟨by rw [setRGB_length, hl], hcache, ?_, ?_⟩
  · intro j hj
    rw [setRGB_getQ_ne _ _ _ _ (by omega) (by omega) (by omega)]
    exact ha j hj
  · intro p hpn
    by_cases hcase : p = n
    · subst hcase
      refine ⟨(findNearestColor r g b pal c).1, hmem, ?_, ?_, ?_⟩
      · exact setRGB_getQ_r data _ _ (by omega)
      · exact setRGB_getQ_g data _ _ (by omega)
      · exact setRGB_getQ_b data _ _ (by omega)
    · have hplt : p < n := by omega
      obtain ⟨q, hq, h0, h1, h2⟩ := hp p hplt
      refine ⟨q, hq, ?_, ?_, ?_⟩ <;>
        rw [setRGB_getQ_ne _ _ _ _ (by omega) (by omega) (by omega)] <;>
        assumption

/-! ### Bayer pass invariant -/

theorem bayerFold_inv (width : ℕ) (pal : List Triple) (intensity : ℚ)
    (d0 : List ℚ) (N : ℕ) (hpal : pal ≠ []) (hd0 : d0.length = 4 * N) :
    ∀ (k n : ℕ) (data : List ℚ) (c : Cache), n + k ≤ N →
      PixelInv d0 pal n data c →
      PixelInv d0 pal (n + k)
        (((List.range' n k).foldl (bayerPixel width pal intensity) (data, c)).1)
        (((List.range' n k).foldl (bayerPixel width pal intensity) (data, c)).2) := by
  intro k
  induction k with
  | zero => intro n data c _ hinv; simpa using hinv
  | succ k ih =>
    intro n data c hk hinv
    rw [List.range'_succ, List.foldl_cons]
    have hstep := pixelWrite_inv d0 pal n data c
      (ratByte (clamp255 (getQ data (n * 4) +
        ((bayerAt (n / width % 8) (n % width % 8) : ℚ) - 32) * (255 * intensity / 64))))
      (ratByte (clamp255 (getQ data (n * 4 + 1) +
        ((bayerAt (n / width % 8) (n % width % 8) : ℚ) - 32) * (255 * intensity / 64))))
      (ratByte (clamp255 (getQ data (n * 4 + 2) +
        ((bayerAt (n / width % 8) (n % width % 8) : ℚ) - 32) * (255 * intensity / 64))))
      hpal (by rw [hinv.1, hd0]; omega) hinv
    have heq : n + (k + 1) = (n + 1) + k := by omega
    rw [heq]
    exact ih (n + 1) _ _ (by omega) hstep

theorem applyBayerCore_inv (data : List ℚ) (width : ℕ) (pal : List Triple)
    (intensity : ℚ) (c : Cache) (N : ℕ) (hpal : pal ≠ [])
    (hlen : data.length = 4 * N) (hc : ∀ v ∈ cacheVals c, v ∈ pal) :
    PixelInv data pal N (applyBayerCore data width pal intensity c).1
      (applyBayerCore data width pal intensity c).2 := by
  unfold applyBayerCore
  have h4 : (data.length + 3) / 4 = N := by omega
  rw [h4, List.range_eq_range']
  have h0 : PixelInv data pal 0 data c :=
    ⟨rfl, hc, fun j _ => rfl, fun p hp => absurd hp (Nat.not_lt_zero p)⟩
  simpa using bayerFold_inv width pal intensity data N hpal hlen N 0 data c (by omega) h0

/-! ### Error-diffusion pass invariant -/

theorem diffuseStep_proj (K : DiffKernel) (w h : ℕ) (pal : List Triple)
    (intensity : ℚ) (y cur x : ℕ) (data err : List ℚ) (c : Cache) :
    ∃ r g b e, diffuseStep K w h pal intensity y cur (data, err, c) x =
      (setRGB data ((y * w + x) * 4) (findNearestColor r g b pal c).1, e,
        (findNearestColor r g b pal c).2) :=
  ⟨_, _, _, _, rfl⟩

theorem diffuseStep_inv (K : DiffKernel) (w h : ℕ) (pal : List Triple)
    (intensity : ℚ) (y cur x : ℕ) (data err : List ℚ) (c : Cache) (d0 : List ℚ)
    (hpal : pal ≠ []) (hlen : (y * w + x) * 4 + 3 ≤ data.length)
    (hinv : PixelInv d0 pal (y * w + x) data c) :
    PixelInv d0 pal (y * w + x + 1)
      ((diffuseStep K w h pal intensity y cur (data, err, c) x).1)
      ((diffuseStep K w h pal intensity y cur (data, err, c) x).2.2) := by
  obtain ⟨r, g, b, e, heq⟩ := diffuseStep_proj K w h pal intensity y cur x data err c
  rw [heq]
  exact pixelWrite_inv d0 pal (y * w + x) data c r g b hpal (by omega) hinv

theorem diffuseRowFold_inv (K : DiffKernel) (w h : ℕ) (pal : List Triple)
    (intensity : ℚ) (y cur : ℕ) (d0 : List ℚ) (hpal : pal ≠ [])
    (hd0 : d0.length = 4 * (w * h)) (hy : y < h) :
    ∀ (k x : ℕ) (data err : List ℚ) (c : Cache), x + k ≤ w →
      PixelInv d0 pal (y * w + x) data c →
      PixelInv d0 pal (y * w + x + k)
        (((List.range' x k).foldl (diffuseStep K w h pal intensity y cur) (data, err, c)).1)
        (((List.range' x k).foldl (diffuseStep K w h pal intensity y cur) (data, err, c)).2.2) := by
  intro k
  induction k with
  | zero => intro x data err c _ hinv; simpa using hinv
  | succ k ih =>
    intro x data err c hk hinv
    rw [List.range'_succ, List.foldl_cons]
    have hxw : y * w + x < w * h := by
      have h1 : (y + 1) * w ≤ h * w := Nat.mul_le_mul_right w hy
      rw [Nat.add_mul, Nat.one_mul] at h1
      rw [Nat.mul_comm w h]
      omega
    have hstep := diffuseStep_inv K w h pal intensity y cur x data err c d0 hpal
      (by rw [hinv.1, hd0]; omega) hinv
    obtain ⟨r, g, b, e, heq⟩ := diffuseStep_proj K w h pal intensity y cur x data err c
    rw [heq] at hstep ⊢
    have h2 := ih (x + 1) (setRGB data ((y * w + x) * 4) (findNearestColor r g b pal c).1)
      e ((findNearestColor r g b pal c).2) (by omega) (by
        have hx1 : y * w + (x + 1) = y * w + x + 1 := by omega
        rw [hx1]
        exact hstep)
    have h3 : y * w + (x + 1) + k = y * w + x + (k + 1) := by omega
    rw [h3] at h2
    exact h2

theorem diffuseRow_inv (K : DiffKernel) (w h : ℕ) (pal : List Triple)
    (intensity : ℚ) (y : ℕ) (d0 : List ℚ) (hpal : pal ≠ [])
    (hd0 : d0.length = 4 * (w * h)) (hy : y < h)
    (st : (List ℚ × List ℚ × Cache) × ℕ)
    (hinv : PixelInv d0 pal (y * w) st.1.1 st.1.2.2) :
    PixelInv d0 pal ((y + 1) * w)
      ((diffuseRow K w h pal intensity st y).1.1)
      ((diffuseRow K w h pal intensity st y).1.2.2) := by
  obtain ⟨⟨data, err, c⟩, cur⟩ := st
  unfold diffuseRow
  have h0 := diffuseRowFold_inv K w h pal intensity y cur d0 hpal hd0 hy w 0 data
    ((List.range (K.rows - 1)).foldl
      (fun e k => clearRange e (((cur + k + 1) % K.rows) * ((w + 2 * K.pad) * 3))
        ((w + 2 * K.pad) * 3)) err)
    c (by omega) (by simpa using hinv)
  rw [← List.range_eq_range'] at h0
  have hw : (y + 1) * w = y * w + 0 + w := by ring
  rw [hw]
  exact h0

theorem diffuseOuterFold_inv (K : DiffKernel) (w h : ℕ) (pal : List Triple)
    (intensity : ℚ) (d0 : List ℚ) (hpal : pal ≠ [])
    (hd0 : d0.length = 4 * (w * h)) :
    ∀ (k y : ℕ) (st : (List ℚ × List ℚ × Cache) × ℕ), y + k ≤ h →
      PixelInv d0 pal (y * w) st.1.1 st.1.2.2 →
      PixelInv d0 pal ((y + k) * w)
        (((List.range' y k).foldl (diffuseRow K w h pal intensity) st).1.1)
        (((List.range' y k).foldl (diffuseRow K w h pal intensity) st).1.2.2) := by
  intro k
  induction k with
  | zero => intro y st _ hinv; simpa using hinv
  | succ k ih =>
    intro y st hk hinv
    rw [List.range'_succ, List.foldl_cons]
    have hstep := diffuseRow_inv K w h pal intensity y d0 hpal hd0 (by omega) st hinv
    have h2 := ih (y + 1) (diffuseRow K w h pal intensity st y) (by omega) hstep
    have h3 : (y + 1 + k) * w = (y + (k + 1)) * w := by ring
    rw [h3] at h2
    exact h2

theorem diffuseCore_inv (K : DiffKernel) (data : List ℚ) (w h : ℕ)
    (pal : List Triple) (intensity : ℚ) (c : Cache) (hpal : pal ≠ [])
    (hlen : data.length = 4 * (w * h)) (hc : ∀ v ∈ cacheVals c, v ∈ pal) :
    PixelInv data pal (w * h) (diffuseCore K data w h pal intensity c).1
      (diffuseCore K data w h pal intensity c).2 := by
  unfold diffuseCore
  have h0 : PixelInv data pal (0 * w) data c := by
    rw [Nat.zero_mul]
    exact ⟨rfl, hc, fun j _ => rfl, fun p hp => absurd hp (Nat.not_lt_zero p)⟩
  have h1 := diffuseOuterFold_inv K w h pal intensity data hpal hlen h 0
    ((data, List.replicate ((w + 2 * K.pad) * 3 * K.rows) (0 : ℚ), c), 0) (by omega) h0
  have h2 : (0 + h) * w = w * h := by ring
  rw [h2] at h1
  rw [List.range_eq_range']
  exact h1

/-! ### Downsampled buffer: length and bounds -/

theorem foldl_length_pres {α : Type} (f : List ℚ → α → List ℚ)
    (hf : ∀ b a, (f b a).length = b.length) (l : List α) (b : List ℚ) :
    (l.foldl f b).length = b.length := by
  induction l generalizing b with
  | nil => rfl
  | cons a t ih => rw [List.foldl_cons, ih, hf]

theorem foldl_bounded_pres {α : Type} (f : List ℚ → α → List ℚ)
    (hf : ∀ b a, Bounded b → Bounded (f b a)) (l : List α) (b : List ℚ)
    (hb : Bounded b) : Bounded (l.foldl f b) := by
  induction l generalizing b with
  | nil => exact hb
  | cons a t ih => exact ih (f b a) (hf b a hb)

theorem bounded_replicate (n : ℕ) : Bounded (List.replicate n (0 : ℚ)) := by
  intro j
  rcases getQ_set_cases (List.replicate n (0 : ℚ)) 0 j 0 with h | h <;>
  · constructor <;>
    · unfold getQ
      rcases hj : (List.replicate n (0:ℚ)).get? j with _ | v
      · norm_num
      · have := List.get?_mem hj
        simp [List.eq_of_mem_replicate this]

theorem bounded_set_u8 (l : List ℚ) (i : ℕ) (q : ℚ) (hb : Bounded l) :
    Bounded (l.set i (u8Store q)) := by
  intro j
  rcases getQ_set_cases l i j (u8Store q) with h | h
  · rw [h]; exact hb j
  · rw [h]; exact u8Store_bounds q

theorem downsampleCell_length (data : List ℚ) (w sw : ℕ) (scaleX scaleY : ℚ)
    (buf : List ℚ) (x y : ℕ) :
    (downsampleCell data w sw scaleX scaleY buf x y).length = buf.length := by
  simp [downsampleCell]

theorem downsampleCell_bounded (data : List ℚ) (w sw : ℕ) (scaleX scaleY : ℚ)
    (buf : List ℚ) (x y : ℕ) (hb : Bounded buf) :
    Bounded (downsampleCell data w sw scaleX scaleY buf x y) := by
  unfold downsampleCell
  exact bounded_set_u8 _ _ _ (bounded_set_u8 _ _ _ (bounded_set_u8 _ _ _
    (bounded_set_u8 _ _ _ hb)))

theorem downsampleBuf_length (data : List ℚ) (w sw sh : ℕ) (scaleX scaleY : ℚ) :
    (downsampleBuf data w sw sh scaleX scaleY).length = sw * sh * 4 := by
  unfold downsampleBuf
  rw [foldl_length_pres]
  · exact List.length_replicate _ _
  · intro b y
    exact foldl_length_pres _ (fun b x => downsampleCell_length data w sw scaleX scaleY b x y) _ b

theorem downsampleBuf_bounded (data : List ℚ) (w sw sh : ℕ) (scaleX scaleY : ℚ) :
    Bounded (downsampleBuf data w sw sh scaleX scaleY) := by
  unfold downsampleBuf
  apply foldl_bounded_pres
  · intro b y hb
    exact foldl_bounded_pres _
      (fun b x hb => downsampleCell_bounded data w sw scaleX scaleY b x y hb) _ b hb
  · exact bounded_replicate _

/-! ### The dispatched full-resolution pass -/

theorem runCore_inv (t : DitherType) (data : List ℚ) (w h : ℕ) (pal : List Triple)
    (intensity : ℚ) (c : Cache) (hpal : pal ≠ [])
    (hlen : data.length = 4 * (w * h)) (hc : ∀ v ∈ cacheVals c, v ∈ pal) :
    PixelInv data pal (w * h) (runCore t data w h pal intensity c).1
      (runCore t data w h pal intensity c).2 := by
  cases t with
  | bayer =>
    exact applyBayerCore_inv data w pal intensity c (w * h) hpal hlen hc
  | floydSteinberg =>
    exact diffuseCore_inv fsKernel data w h pal intensity c hpal hlen hc
  | jjn =>
    exact diffuseCore_inv jjnKernel data w h pal intensity c hpal hlen hc
  | stucki =>
    exact diffuseCore_inv stuckiKernel data w h pal intensity c hpal hlen hc
  | sierra =>
    exact diffuseCore_inv sierraKernel data w h pal intensity c hpal hlen hc

/-! ### Upsample invariant -/

theorem floor_div_scale_lt (x w s : ℕ) (hx : x < w) (hs : 0 < s) :
    (⌊(x : ℚ) / ((w : ℚ) / (s : ℚ))⌋).toNat < s := by
  have hw : 0 < w := by omega
  have hwq : (0 : ℚ) < (w : ℚ) := by exact_mod_cast hw
  have hsq : (0 : ℚ) < (s : ℚ) := by exact_mod_cast hs
  have hrw : (x : ℚ) / ((w : ℚ) / (s : ℚ)) = (x : ℚ) * (s : ℚ) / (w : ℚ) :=
    div_div_eq_mul_div _ _ _
  have hlt : ⌊(x : ℚ) / ((w : ℚ) / (s : ℚ))⌋ < (s : ℤ) := by
    rw [hrw]
    apply Int.floor_lt.mpr
    push_cast
    rw [div_lt_iff hwq]
    have hxq : (x : ℚ) < (w : ℚ) := by exact_mod_cast hx
    nlinarith
  omega

theorem upsampleWrite_inv (d0 : List ℚ) (pal : List Triple) (n : ℕ)
    (data scaled : List ℚ) (src : ℕ) (hlen : n * 4 + 3 < data.length)
    (hsrc : pixelIsPal scaled src pal)
    (halpha : 0 ≤ getQ scaled (src * 4 + 3) ∧ getQ scaled (src * 4 + 3) ≤ 255)
    (hinv : UpsampleInv d0 pal n data) :
    UpsampleInv d0 pal (n + 1) (copyPixel data (n * 4) scaled (src * 4)) := by
  obtain ⟨hl, hp⟩ := hinv
  refine ⟨by rw [copyPixel_length, hl], ?_⟩
  intro p hpn
  by_cases hcase : p = n
  · subst hcase
    obtain ⟨q, hq, h0, h1, h2⟩ := hsrc
    refine ⟨⟨q, hq, ?_, ?_, ?_⟩, ?_, ?_⟩
    · have := copyPixel_getQ data (p * 4) scaled (src * 4) (by omega) 0 (by omega)
      simpa using this.trans (by simpa using h0)
    · have := copyPixel_getQ data (p * 4) scaled (src * 4) (by omega) 1 (by omega)
      exact this.trans h1
    · have := copyPixel_getQ data (p * 4) scaled (src * 4) (by omega) 2 (by omega)
      exact this.trans h2
    · have := copyPixel_getQ data (p * 4) scaled (src * 4) (by omega) 3 (by omega)
      rw [this]
      exact halpha.1
    · have := copyPixel_getQ data (p * 4) scaled (src * 4) (by omega) 3 (by omega)
      rw [this]
      exact halpha.2
  · have hplt : p < n := by omega
    obtain ⟨⟨q, hq, h0, h1, h2⟩, ha0, ha1⟩ := hp p hplt
    refine ⟨⟨q, hq, ?_, ?_, ?_⟩, ?_, ?_⟩ <;>
      rw [copyPixel_getQ_ne data _ _ scaled _ (by omega) (by omega) (by omega) (by omega)] <;>
      assumption

theorem upsampleRowFold_inv (scaled : List ℚ) (w h sw sh : ℕ) (pal : List Triple)
    (d0 : List ℚ) (y : ℕ) (hy : y < h) (hsw : 0 < sw) (hsh : 0 < sh)
    (hscaled : ∀ p, p < sw * sh → pixelIsPal scaled p pal ∧
      0 ≤ getQ scaled (p * 4 + 3) ∧ getQ scaled (p * 4 + 3) ≤ 255)
    (hd0 : d0.length = 4 * (w * h)) :
    ∀ (k x : ℕ) (data : List ℚ), x + k ≤ w →
      UpsampleInv d0 pal (y * w + x) data →
      UpsampleInv d0 pal (y * w + x + k)
        ((List.range' x k).foldl
          (upsamplePixel scaled w sw ((w : ℚ) / (sw : ℚ)) ((h : ℚ) / (sh : ℚ)) y) data) := by
  intro k
  induction k with
  | zero => intro x data _ hinv; simpa using hinv
  | succ k ih =>
    intro x data hk hinv
    rw [List.range'_succ, List.foldl_cons]
    have hxw : y * w + x < w * h := by
      have h1 : (y + 1) * w ≤ h * w := Nat.mul_le_mul_right w hy
      rw [Nat.add_mul, Nat.one_mul] at h1
      rw [Nat.mul_comm w h]
      omega
    have hsrcX : (⌊(x : ℚ) / ((w : ℚ) / (sw : ℚ))⌋).toNat < sw :=
      floor_div_scale_lt x w sw (by omega) hsw
    have hsrcY : (⌊(y : ℚ) / ((h : ℚ) / (sh : ℚ))⌋).toNat < sh :=
      floor_div_scale_lt y h sh hy hsh
    have hsrc : (⌊(y : ℚ) / ((h : ℚ) / (sh : ℚ))⌋).toNat * sw +
        (⌊(x : ℚ) / ((w : ℚ) / (sw : ℚ))⌋).toNat < sw * sh := by
      have h1 : ((⌊(y : ℚ) / ((h : ℚ) / (sh : ℚ))⌋).toNat + 1) * sw ≤ sh * sw :=
        Nat.mul_le_mul_right sw (by omega)
      rw [Nat.add_mul, Nat.one_mul] at h1
      rw [Nat.mul_comm sw sh]
      omega
    obtain ⟨hm, ha0, ha1⟩ := hscaled _ hsrc
    have hup : upsamplePixel scaled w sw ((w : ℚ) / (sw : ℚ)) ((h : ℚ) / (sh : ℚ)) y data x =
        copyPixel data ((y * w + x) * 4) scaled
          (((⌊(y : ℚ) / ((h : ℚ) / (sh : ℚ))⌋).toNat * sw +
            (⌊(x : ℚ) / ((w : ℚ) / (sw : ℚ))⌋).toNat) * 4) := rfl
    rw [hup]
    have hstep := upsampleWrite_inv d0 pal (y * w + x) data scaled _
      (by rw [hinv.1, hd0]; omega) hm ⟨ha0, ha1⟩ hinv
    have h2 := ih (x + 1) (copyPixel data ((y * w + x) * 4) scaled
        (((⌊(y : ℚ) / ((h : ℚ) / (sh : ℚ))⌋).toNat * sw +
          (⌊(x : ℚ) / ((w : ℚ) / (sw : ℚ))⌋).toNat) * 4))
      (by omega) (by
        have hx1 : y * w + (x + 1) = y * w + x + 1 := by omega
        rw [hx1]
        exact hstep)
    have h3 : y * w + (x + 1) + k = y * w + x + (k + 1) := by omega
    rw [h3] at h2
    exact h2

theorem upsampleOuterFold_inv (scaled : List ℚ) (w h sw sh : ℕ) (pal : List Triple)
    (d0 : List ℚ) (hsw : 0 < sw) (hsh : 0 < sh)
    (hscaled : ∀ p, p < sw * sh → pixelIsPal scaled p pal ∧
      0 ≤ getQ scaled (p * 4 + 3) ∧ getQ scaled (p * 4 + 3) ≤ 255)
    (hd0 : d0.length = 4 * (w * h)) :
    ∀ (k y : ℕ) (data : List ℚ), y + k ≤ h →
      UpsampleInv d0 pal (y * w) data →
      UpsampleInv d0 pal ((y + k) * w)
        ((List.range' y k).foldl (fun d yy =>
          (List.range w).foldl
            (upsamplePixel scaled w sw ((w : ℚ) / (sw : ℚ)) ((h : ℚ) / (sh : ℚ)) yy) d) data) := by
  intro k
  induction k with
  | zero => intro y data _ hinv; simpa using hinv
  | succ k ih =>
    intro y data hk hinv
    rw [List.range'_succ, List.foldl_cons]
    have hrow := upsampleRowFold_inv scaled w h sw sh pal d0 y (by omega) hsw hsh
      hscaled hd0 w 0 data (by omega) (by simpa using hinv)
    rw [← List.range_eq_range'] at hrow
    have h2 := ih (y + 1) _ (by omega) (by
      have hyw : (y + 1) * w = y * w + 0 + w := by ring
      rw [hyw]
      exact hrow)
    have h3 : (y + 1 + k) * w = (y + (k + 1)) * w := by ring
    rw [h3] at h2
    exact h2

theorem upsample_inv (data scaled : List ℚ) (w h sw sh : ℕ) (pal : List Triple)
    (hsw : 0 < sw) (hsh : 0 < sh)
    (hscaled : ∀ p, p < sw * sh → pixelIsPal scaled p pal ∧
      0 ≤ getQ scaled (p * 4 + 3) ∧ getQ scaled (p * 4 + 3) ≤ 255)
    (hlen : data.length = 4 * (w * h)) :
    UpsampleInv data pal (w * h)
      (upsample data scaled w h sw ((w : ℚ) / (sw : ℚ)) ((h : ℚ) / (sh : ℚ))) := by
  unfold upsample
  have h0 : UpsampleInv data pal (0 * w) data := by
    rw [Nat.zero_mul]
    exact ⟨rfl, fun p hp => absurd hp (Nat.not_lt_zero p)⟩
  have h1 := upsampleOuterFold_inv scaled w h sw sh pal data hsw hsh hscaled hlen h 0
    data (by omega) h0
  rw [← List.range_eq_range'] at h1
  have h2 : (0 + h) * w = w * h := by ring
  rw [h2] at h1
  exact h1

theorem scaledDim_pos (d : ℕ) (r : ℚ) : 0 < scaledDim d r :=
  lt_of_lt_of_le (by norm_num) (le_max_left 2 _)

theorem applyDitheringAtLowerResolution_inv (t : DitherType) (data : List ℚ)
    (w h : ℕ) (pal : List Triple) (intensity res : ℚ) (c : Cache)
    (hpal : pal ≠ []) (hlen : data.length = 4 * (w * h))
    (hc : ∀ v ∈ cacheVals c, v ∈ pal) :
    (applyDitheringAtLowerResolution data w h pal intensity res t c).1.length = data.length ∧
      (∀ p, p < w * h →
        pixelIsPal (applyDitheringAtLowerResolution data w h pal intensity res t c).1 p pal ∧
        0 ≤ getQ (applyDitheringAtLowerResolution data w h pal intensity res t c).1 (p * 4 + 3) ∧
        getQ (applyDitheringAtLowerResolution data w h pal intensity res t c).1 (p * 4 + 3) ≤ 255) ∧
      (∀ v ∈ cacheVals (applyDitheringAtLowerResolution data w h pal intensity res t c).2, v ∈ pal) := by
  have hswp := scaledDim_pos w res
  have hshp := scaledDim_pos h res
  have hslen : (downsampleBuf data w (scaledDim w res) (scaledDim h res)
      ((w : ℚ) / (scaledDim w res : ℕ)) ((h : ℚ) / (scaledDim h res : ℕ))).length =
      4 * (scaledDim w res * scaledDim h res) := by
    rw [downsampleBuf_length]; ring
  have hrc := runCore_inv t _ (scaledDim w res) (scaledDim h res) pal intensity c hpal hslen hc
  have hbnd := downsampleBuf_bounded data w (scaledDim w res) (scaledDim h res)
    ((w : ℚ) / (scaledDim w res : ℕ)) ((h : ℚ) / (scaledDim h res : ℕ))
  have hscaled : ∀ p, p < scaledDim w res * scaledDim h res →
      pixelIsPal (runCore t (downsampleBuf data w (scaledDim w res) (scaledDim h res)
        ((w : ℚ) / (scaledDim w res : ℕ)) ((h : ℚ) / (scaledDim h res : ℕ)))
        (scaledDim w res) (scaledDim h res) pal intensity c).1 p pal ∧
      0 ≤ getQ (runCore t (downsampleBuf data w (scaledDim w res) (scaledDim h res)
        ((w : ℚ) / (scaledDim w res : ℕ)) ((h : ℚ) / (scaledDim h res : ℕ)))
        (scaledDim w res) (scaledDim h res) pal intensity c).1 (p * 4 + 3) ∧
      getQ (runCore t (downsampleBuf data w (scaledDim w res) (scaledDim h res)
        ((w : ℚ) / (scaledDim w res : ℕ)) ((h : ℚ) / (scaledDim h res : ℕ)))
        (scaledDim w res) (scaledDim h res) pal intensity c).1 (p * 4 + 3) ≤ 255 := by
    intro p hp
    refine ⟨hrc.2.2.2 p hp, ?_, ?_⟩
    · rw [hrc.2.2.1 (p * 4 + 3) (by omega)]
      exact (hbnd (p * 4 + 3)).1
    · rw [hrc.2.2.1 (p * 4 + 3) (by omega)]
      exact (hbnd (p * 4 + 3)).2
  have hup := upsample_inv data _ w h (scaledDim w res) (scaledDim h res) pal hswp hshp
    hscaled hlen
  exact ⟨hup.1, hup.2, hrc.2.1⟩

/-! ### Entry-point dispatch on `resolution` -/

theorem runDither_ge_one (t : DitherType) (data : List ℚ) (w h : ℕ)
    (pal : List Triple) (intensity resolution : ℚ) (c : Cache)
    (hres : ¬ resolution < 1) :
    runDither t data w h pal intensity resolution c =
      runCore t data w h pal intensity c := by
  cases t <;>
    simp [runDither, runCore, applyBayerDithering, applyFloydSteinbergDithering,
      applyJJNDithering, applyStuckiDithering, applySierraDithering, hres]

theorem runDither_lt_one (t : DitherType) (data : List ℚ) (w h : ℕ)
    (pal : List Triple) (intensity resolution : ℚ) (c : Cache)
    (hres : resolution < 1) :
    runDither t data w h pal intensity resolution c =
      applyDitheringAtLowerResolution data w h pal intensity resolution t c := by
  cases t <;>
    simp [runDither, applyBayerDithering, applyFloydSteinbergDithering,
      applyJJNDithering, applyStuckiDithering, applySierraDithering, hres]

/-! ### Channel bounds from palette membership -/

theorem getQ_mem (l : List ℚ) (j : ℕ) (hj : j < l.length) : getQ l j ∈ l := by
  unfold getQ
  cases hq : l.get? j with
  | none =>
    exact absurd (List.get?_eq_none.mp hq) (by omega)
  | some v =>
    simpa using List.get?_mem hq

theorem pixel_bounds_of_inv (out : List ℚ) (pal : List Triple) (w h : ℕ)
    (hpal255 : ∀ q ∈ pal, q.1 ≤ 255 ∧ q.2.1 ≤ 255 ∧ q.2.2 ≤ 255)
    (hmem : ∀ p, p < w * h → pixelIsPal out p pal)
    (halpha : ∀ p, p < w * h → 0 ≤ getQ out (p * 4 + 3) ∧ getQ out (p * 4 + 3) ≤ 255) :
    ∀ j, j < 4 * (w * h) → 0 ≤ getQ out j ∧ getQ out j ≤ 255 := by
  intro j hj
  have hp : j / 4 < w * h := by omega
  have hk : j % 4 = 0 ∨ j % 4 = 1 ∨ j % 4 = 2 ∨ j % 4 = 3 := by omega
  rcases hk with hk | hk | hk | hk
  · obtain ⟨q, hq, h0, h1, h2⟩ := hmem (j / 4) hp
    have hj4 : j = j / 4 * 4 := by omega
    rw [hj4, h0]
    have := (hpal255 q hq).1
    constructor
    · positivity
    · exact_mod_cast this
  · obtain ⟨q, hq, h0, h1, h2⟩ := hmem (j / 4) hp
    have hj4 : j = j / 4 * 4 + 1 := by omega
    rw [hj4, h1]
    have := (hpal255 q hq).2.1
    constructor
    · positivity
    · exact_mod_cast this
  · obtain ⟨q, hq, h0, h1, h2⟩ := hmem (j / 4) hp
    have hj4 : j = j / 4 * 4 + 2 := by omega
    rw [hj4, h2]
    have := (hpal255 q hq).2.2
    constructor
    · positivity
    · exact_mod_cast this
  · have hj4 : j = j / 4 * 4 + 3 := by omega
    rw [hj4]
    exact halpha (j / 4) hp

/-! ### Claim C1 -/

/-- C1 counterexample.  The claim fails as stated, in two ways.
    (a) Alpha is not bit-identical when `resolution < 1`: on a 4×4 image at
    resolution 1/2 whose pixel 0 has alpha 255 and whose other pixels have
    alpha 0, the box downsample averages the alpha of the top-left block to
    63.75, which is stored as 64 and upsampled back, so the output alpha at
    pixel 0 is 64, not 255.
    (b) With the process-wide color cache holding an entry computed under a
    different palette, the output RGB of `applyBayerDithering` under palette
    `[(255,255,255)]` is (0,0,0), which is not a member of that palette. -/
theorem C1_counterexample :
    (getQ ((applyBayerDithering ((List.replicate 64 (0 : ℚ)).set 3 255) 4 4
        [(0, 0, 0)] 0 (1/2) []).1) 3 ≠
      getQ ((List.replicate 64 (0 : ℚ)).set 3 255) 3) ∧
    ¬ pixelIsPal ((applyBayerDithering [10, 10, 10, 255] 1 1 [(255, 255, 255)] 0 1
        [(cacheKey 10 10 10, (0, 0, 0))]).1) 0 [(255, 255, 255)] := by
  constructor
  · have h1 : getQ ((applyBayerDithering ((List.replicate 64 (0 : ℚ)).set 3 255) 4 4
        [(0, 0, 0)] 0 (1/2) []).1) 3 = 64 := by with_unfolding_all rfl
    have h2 : getQ ((List.replicate 64 (0 : ℚ)).set 3 255) 3 = 255 := by
      with_unfolding_all rfl
    rw [h1, h2]
    norm_num
  · intro hp
    obtain ⟨q, hq, h0, h1, h2⟩ := hp
    simp only [List.mem_singleton] at hq
    subst hq
    have h3 : getQ ((applyBayerDithering [10, 10, 10, 255] 1 1 [(255, 255, 255)] 0 1
        [(cacheKey 10 10 10, (0, 0, 0))]).1) (0 * 4) = 0 := by with_unfolding_all rfl
    rw [h3] at h0
    exact absurd h0 (by norm_num)

/-- C1 (amended): for every framebuffer, every non-empty palette whose
    entries are byte triples, every intensity and every resolution in (0,1],
    provided the color cache holds only members of the active palette
    (e.g. it is empty), each of the five dithering entry points leaves every
    output pixel with each channel in [0,255] and with its RGB triple
    exactly equal to some palette entry; the alpha byte is bit-identical to
    the input alpha at the same pixel when resolution = 1 (at lower
    resolutions alpha is box-averaged and upsampled instead). -/
theorem C1_amended_dither_invariants (t : DitherType) (data : List ℚ) (w h : ℕ)
    (pal : List Triple) (intensity resolution : ℚ) (c : Cache)
    (hpal : pal ≠ [])
    (hpal255 : ∀ q ∈ pal, q.1 ≤ 255 ∧ q.2.1 ≤ 255 ∧ q.2.2 ≤ 255)
    (hlen : data.length = 4 * (w * h))
    (hdata : ∀ v ∈ data, 0 ≤ v ∧ v ≤ 255)
    (hc : ∀ v ∈ cacheVals c, v ∈ pal)
    (hres0 : 0 < resolution) (hres1 : resolution ≤ 1) :
    (runDither t data w h pal intensity resolution c).1.length = 4 * (w * h) ∧
      (∀ p, p < w * h → pixelIsPal (runDither t data w h pal intensity resolution c).1 p pal) ∧
      (∀ j, j < 4 * (w * h) →
        0 ≤ getQ (runDither t data w h pal intensity resolution c).1 j ∧
        getQ (runDither t data w h pal intensity resolution c).1 j ≤ 255) ∧
      (resolution = 1 → ∀ p, p < w * h →
        getQ (runDither t data w h pal intensity resolution c).1 (p * 4 + 3) =
          getQ data (p * 4 + 3)) := by
  by_cases hres : resolution < 1
  · rw [runDither_lt_one t data w h pal intensity resolution c hres]
    obtain ⟨hl, hpix, hcv⟩ :=
      applyDitheringAtLowerResolution_inv t data w h pal intensity resolution c hpal hlen hc
    refine ⟨by rw [hl, hlen], fun p hp => (hpix p hp).1, ?_, ?_⟩
    · exact pixel_bounds_of_inv _ pal w h hpal255 (fun p hp => (hpix p hp).1)
        (fun p hp => (hpix p hp).2)
    · intro h1
      exact absurd h1 (by intro hh; rw [hh] at hres; exact lt_irrefl 1 hres)
  · rw [runDither_ge_one t data w h pal intensity resolution c hres]
    obtain ⟨hl, hcv, ha, hp⟩ := runCore_inv t data w h pal intensity c hpal hlen hc
    have halpha : ∀ p, p < w * h →
        0 ≤ getQ (runCore t data w h pal intensity c).1 (p * 4 + 3) ∧
        getQ (runCore t data w h pal intensity c).1 (p * 4 + 3) ≤ 255 := by
      intro p hpwh
      rw [ha (p * 4 + 3) (by omega)]
      exact hdata _ (getQ_mem data (p * 4 + 3) (by omega))
    exact ⟨by rw [hl, hlen], hp, pixel_bounds_of_inv _ pal w h hpal255 hp halpha,
      fun _ p hpwh => ha (p * 4 + 3) (by omega)⟩

/-- C1 amended, witnessed at a concrete instance (1×1 framebuffer, Bayer,
    unit palette, empty cache, resolution 1). -/
theorem C1_amended_witness :
    (runDither DitherType.bayer [10, 10, 10, 255] 1 1 [(0, 0, 0)] 0 1 []).1.length =
      4 * (1 * 1) :=
  (C1_amended_dither_invariants DitherType.bayer [10, 10, 10, 255] 1 1 [(0, 0, 0)] 0 1 []
    (by decide) (by decide) (by rfl)
    (by
      intro v hv
      simp only [List.mem_cons, List.not_mem_nil, or_false] at hv
      rcases hv with h | h | h | h <;> subst h <;> norm_num)
    (by simp [cacheVals]) (by norm_num) (by norm_num)).1

/-! ### Claim C2 -/

/-- C2: `findNearestColor` (via its linear scan) returns a member of the
    palette minimizing the squared Euclidean distance, the earliest entry
    winning exact ties; when the cache has no stale entry for the query it
    returns exactly that scan result; and two consecutive calls with the
    same RGB input and the same palette return the identical result. -/
theorem C2_findNearestColor_correct (r g b : ℕ) (pal : List Triple) (hpal : pal ≠ []) :
    (nearestScan r g b pal ∈ pal ∧
      (∀ p ∈ pal, sqDist r g b (nearestScan r g b pal) ≤ sqDist r g b p) ∧
      (∃ l1 l2, pal = l1 ++ nearestScan r g b pal :: l2 ∧
        ∀ q ∈ l1, sqDist r g b (nearestScan r g b pal) < sqDist r g b q)) ∧
    (∀ c : Cache,
      (cacheLookup c (cacheKey r g b) = none ∨
        cacheLookup c (cacheKey r g b) = some (nearestScan r g b pal)) →
      (findNearestColor r g b pal c).1 = nearestScan r g b pal) ∧
    (∀ c : Cache,
      (findNearestColor r g b pal ((findNearestColor r g b pal c).2)).1 =
        (findNearestColor r g b pal c).1) := by
  obtain ⟨hdec, hmin⟩ := nearestScan_spec r g b pal hpal
  refine ⟨⟨nearestScan_mem r g b pal hpal, hmin, hdec⟩, ?_, ?_⟩
  · intro c hc
    unfold findNearestColor
    rcases hc with hc | hc <;> rw [hc]
  · intro c
    exact findNearestColor_idem r g b pal c

/-- C2, witnessed at a concrete query and palette. -/
theorem C2_witness :
    nearestScan 10 20 30 [(0, 0, 0), (255, 255, 255)] ∈
      ([(0, 0, 0), (255, 255, 255)] : List Triple) ∧
    (findNearestColor 10 20 30 [(0, 0, 0), (255, 255, 255)]
        ((findNearestColor 10 20 30 [(0, 0, 0), (255, 255, 255)] []).2)).1 =
      (findNearestColor 10 20 30 [(0, 0, 0), (255, 255, 255)] []).1 :=
  ⟨(C2_findNearestColor_correct 10 20 30 [(0, 0, 0), (255, 255, 255)] (by decide)).1.1,
   (C2_findNearestColor_correct 10 20 30 [(0, 0, 0), (255, 255, 255)] (by decide)).2.2 []⟩

/-! ### Claim C5 -/

/-- C5: the color cache is keyed solely by the packed value
    `(r<<16)|(g<<8)|b` with no palette component; the dithering entry points
    do not clear it while `reduceColorsTopalette` behaves as if started from
    an empty cache; consequently quantizing (10,10,10) under palette A =
    [(0,0,0)] via `applyBayerDithering` and then the same color under
    palette B = [(255,255,255)] with no intervening clear returns palette
    A's cached (0,0,0), which is not a member of B. -/
theorem C5_cache_contamination :
    (∀ r g b : ℕ, cacheKey r g b = r * 2 ^ 16 + g * 2 ^ 8 + b) ∧
    ((applyBayerDithering [10, 10, 10, 255] 1 1 [(0, 0, 0)] 0 1 []).2 =
      [(cacheKey 10 10 10, (0, 0, 0))]) ∧
    ((applyBayerDithering [10, 10, 10, 255] 1 1 [(255, 255, 255)] 0 1
        ((applyBayerDithering [10, 10, 10, 255] 1 1 [(0, 0, 0)] 0 1 []).2)).1 =
      [0, 0, 0, 255]) ∧
    (((0, 0, 0) : Triple) ∉ ([(255, 255, 255)] : List Triple)) ∧
    (∀ (data : List ℚ) (pal : List Triple) (c : Cache),
      reduceColorsTopalette data pal c = reduceColorsTopalette data pal []) := by
  refine ⟨?_, ?_, ?_, by decide, fun data pal c => rfl⟩
  · intro r g b
    norm_num [cacheKey]
  · with_unfolding_all rfl
  · with_unfolding_all rfl

/-! ### Claim C4 -/

/-- C4: in the export pipeline's per-frame quantization (identical in the
    GIF frame loop and the video capture loop), `ditheringType` selects only
    between two implementations: `bayer` invokes `applyBayerDithering`, and
    every other value — `jjn`, `stucki` and `sierra` included — invokes
    `applyFloydSteinbergDithering`. -/
theorem C4_export_dither_dispatch (data : List ℚ) (w h : ℕ) (pal : List Triple)
    (intensity resolution : ℚ) (c : Cache) :
    (∀ t : DitherType,
      exportFrameQuantize ⟨true, t, intensity, resolution⟩ data w h pal c =
        (if t = DitherType.bayer then
          applyBayerDithering data w h pal intensity resolution c
        else applyFloydSteinbergDithering data w h pal intensity resolution c)) ∧
    exportFrameQuantize ⟨true, DitherType.jjn, intensity, resolution⟩ data w h pal c =
      exportFrameQuantize ⟨true, DitherType.floydSteinberg, intensity, resolution⟩ data w h pal c ∧
    exportFrameQuantize ⟨true, DitherType.stucki, intensity, resolution⟩ data w h pal c =
      exportFrameQuantize ⟨true, DitherType.floydSteinberg, intensity, resolution⟩ data w h pal c ∧
    exportFrameQuantize ⟨true, DitherType.sierra, intensity, resolution⟩ data w h pal c =
      exportFrameQuantize ⟨true, DitherType.floydSteinberg, intensity, resolution⟩ data w h pal c ∧
    exportFrameQuantize ⟨true, DitherType.bayer, intensity, resolution⟩ data w h pal c =
      applyBayerDithering data w h pal intensity resolution c := by
  refine ⟨?_, rfl, rfl, rfl, rfl⟩
  intro t
  cases t <;> simp [exportFrameQuantize]

/-! ### Claim C6 -/

theorem captureTick_inv (fps : ℕ) (s : ℕ × List ℕ) (t : ℕ)
    (h1 : s.2.Pairwise (· < ·)) (h2 : ∀ i ∈ s.2, i ≤ s.1) :
    (captureTick fps s t).2.Pairwise (· < ·) ∧
      ∀ i ∈ (captureTick fps s t).2, i ≤ (captureTick fps s t).1 := by
  simp only [captureTick]
  by_cases hle : frameIndexAt fps t ≤ s.1
  · rw [if_pos hle]
    exact ⟨h1, h2⟩
  · rw [if_neg hle]
    push_neg at hle
    constructor
    · rw [List.pairwise_append]
      refine ⟨h1, List.pairwise_singleton _ _, ?_⟩
      intro a ha b hb
      simp only [List.mem_singleton] at hb
      subst hb
      exact lt_of_le_of_lt (h2 a ha) hle
    · intro i hi
      rcases List.mem_append.mp hi with hi | hi
      · exact le_of_lt (lt_of_le_of_lt (h2 i hi) hle)
      · simp only [List.mem_singleton] at hi
        subst hi
        exact le_refl _

theorem captureRun_pairwise (fps : ℕ) :
    ∀ (ticks : List ℕ) (s : ℕ × List ℕ),
      s.2.Pairwise (· < ·) → (∀ i ∈ s.2, i ≤ s.1) →
      (ticks.foldl (captureTick fps) s).2.Pairwise (· < ·) := by
  intro ticks
  induction ticks with
  | nil => intro s h1 _; exact h1
  | cons t ts ih =>
    intro s h1 h2
    rw [List.foldl_cons]
    obtain ⟨h1', h2'⟩ := captureTick_inv fps s t h1 h2
    exact ih _ h1' h2'

/-- C6: over any run of the video capture loop, the sequence of captured
    frame indices handed on is strictly increasing — no duplicate and no
    out-of-order frame — and each frame index (hence each nominal frame
    interval) is captured at most once. -/
theorem C6_capture_strictly_increasing (fps : ℕ) (ticks : List ℕ) :
    List.Chain' (· < ·) (captureIndices fps ticks) ∧
      ∀ k : ℕ, (captureIndices fps ticks).count k ≤ 1 := by
  have hpw : (captureIndices fps ticks).Pairwise (· < ·) := by
    unfold captureIndices captureRun
    exact captureRun_pairwise fps ticks (0, []) (List.Pairwise.nil) (by simp)
  constructor
  · exact hpw.chain'
  · intro k
    have hnd : (captureIndices fps ticks).Nodup := hpw.imp (fun h => ne_of_lt h)
    exact List.nodup_iff_count_le_one.mp hnd k

/-! ### Claim C7 -/

/-- C7: the export scheduler derives
    `targetFrameCount = round(loopDuration·loopCount·fps)`,
    `exactDurationMs = targetFrameCount/fps·1000` and
    `stopDurationMs = exactDurationMs − 0.1·(1000/fps)`; in particular for
    `loopDuration = 2 s`, `fps = 30`, `loopCount = 1` the frame count is 60
    and the stop time is strictly below 2000 ms. -/
theorem C7_export_timing :
    (∀ s : ExportTimingSettings,
      targetFrameCount s = round (s.loopDuration * s.exportLoopCount * s.exportFps) ∧
      exactDurationMs s = ((targetFrameCount s : ℚ) / s.exportFps) * 1000 ∧
      stopDurationMs s = exactDurationMs s - (1000 / s.exportFps) * (1/10)) ∧
    targetFrameCount ⟨2, 1, 30⟩ = 60 ∧
    stopDurationMs ⟨2, 1, 30⟩ < 2000 := by
  refine ⟨fun s => ⟨rfl, rfl, rfl⟩, ?_, ?_⟩
  · have h : targetDuration ⟨2, 1, 30⟩ * (30 : ℚ) = 60 := by
      norm_num [targetDuration]
    rw [targetFrameCount, h]
    norm_num [round_eq]
  · have h : stopDurationMs ⟨2, 1, 30⟩ = 5990 / 3 := by with_unfolding_all rfl
    rw [h]
    norm_num

/-! ### Claim C8 -/

/-- C8: the crop rectangle is exactly as the claim's formulas state, never
    letterboxes (both crop dimensions fit inside the source) and is
    centered; in particular a 1920×1080 source exported at 1080×1080 crops
    the width to 1080 with `cropX = 420`, `cropY = 0`. -/
theorem C8_crop_policy :
    (∀ sw sh ew eh : ℚ, 0 < sw → 0 < sh → 0 < ew → 0 < eh →
      cropRect sw sh ew eh = cropRectSpec sw sh ew eh ∧
      (cropRect sw sh ew eh).1 ≤ sw ∧ (cropRect sw sh ew eh).2.1 ≤ sh ∧
      (cropRect sw sh ew eh).2.2.1 = (sw - (cropRect sw sh ew eh).1) / 2 ∧
      (cropRect sw sh ew eh).2.2.2 = (sh - (cropRect sw sh ew eh).2.1) / 2) ∧
    cropRect 1920 1080 1080 1080 = (1080, 1080, 420, 0) := by
  constructor
  · intro sw sh ew eh hsw hsh hew heh
    have hear : 0 < ew / eh := div_pos hew heh
    unfold cropRect cropRectSpec
    by_cases hcond : ew / eh > sw / sh
    · rw [if_pos hcond]
      refine ⟨rfl, le_refl _, ?_, by norm_num, rfl⟩
      have h1 : sw / sh < ew / eh := hcond
      have h2 : sw < sh * (ew / eh) := by
        rw [div_lt_iff hsh] at h1
        linarith [mul_comm (ew / eh) sh]
      rw [div_le_iff hear]
      linarith
    · rw [if_neg hcond]
      refine ⟨rfl, ?_, le_refl _, rfl, by norm_num⟩
      push_neg at hcond
      rw [div_le_div_iff heh hsh] at hcond
      calc sh * (ew / eh) = sh * ew / eh := by ring
        _ ≤ sw := by
            rw [div_le_iff heh]
            nlinarith
  · with_unfolding_all rfl

/-- C8, witnessed at the claim's concrete instance. -/
theorem C8_witness :
    cropRect 1920 1080 1080 1080 = cropRectSpec 1920 1080 1080 1080 :=
  (C8_crop_policy.1 1920 1080 1080 1080 (by norm_num) (by norm_num) (by norm_num)
    (by norm_num)).1

/-! ### Claim C9 -/

/-- C9 (code bug): the reported export progress is NOT monotonically
    non-decreasing over a GIF run.  With 3 frames the frame-generation
    phase reports 0, 1/3, 2/3 (the loop reports `i / targetFrameCount`,
    spanning [0,1)), after which the first encoder progress event reports
    `0.5 + p·0.5 = 0.5` — a strict decrease from 2/3, contradicting the
    code's own "50% for frame generation, 50% for encoding" comment — and
    the `finished` handler then resets progress to 0. -/
theorem C9_gif_progress_not_monotone :
    gifProgressReports 3 [0] = [0, 0, 1/3, 2/3, 1/2, 0] ∧
      ¬ List.Chain' (· ≤ ·) (gifProgressReports 3 [0]) := by
  have h : gifProgressReports 3 [0] = [0, 0, 1/3, 2/3, 1/2, 0] := by
    with_unfolding_all rfl
  refine ⟨h, ?_⟩
  rw [h]
  intro hch
  simp only [List.chain'_cons, List.chain'_singleton, and_true] at hch
  have h23 : (2 : ℚ) / 3 ≤ 1 / 2 := hch.2.2.2.1
  norm_num at h23

/-! ### Claim C10 -/

/-- C10: at an interior pixel, Floyd–Steinberg distributes weights summing
    to its divisor 16 and JJN to its divisor 48 (the full residual is
    diffused), whereas the Stucki implementation distributes 32 against a
    divisor of 42 and the Sierra implementation 25 against a divisor of 32,
    discarding the fixed fractions 10/42 and 7/32 of every interior pixel's
    residual. -/
theorem C10_kernel_weight_sums (w h x y errIdx : ℕ) (rowStart : ℕ → ℕ) :
    (x + 1 < w → y + 1 < h →
      ((fsAdds w h x y errIdx rowStart 1 0 0).map Prod.snd).sum = 16 ∧
        fsKernel.divisor = 16) ∧
    (0 < x → x + 2 < w → y + 2 < h →
      ((jjnAdds w h x y errIdx rowStart 1 0 0).map Prod.snd).sum = 48 ∧
        jjnKernel.divisor = 48) ∧
    (0 < x → x + 3 < w → y + 1 < h →
      ((stuckiAdds w h x y errIdx rowStart 1 0 0).map Prod.snd).sum = 32 ∧
        stuckiKernel.divisor = 42 ∧
        1 - ((stuckiAdds w h x y errIdx rowStart 1 0 0).map Prod.snd).sum /
          stuckiKernel.divisor = 10 / 42) ∧
    (0 < x → x + 3 < w → y + 1 < h →
      ((sierraAdds w h x y errIdx rowStart 1 0 0).map Prod.snd).sum = 25 ∧
        sierraKernel.divisor = 32 ∧
        1 - ((sierraAdds w h x y errIdx rowStart 1 0 0).map Prod.snd).sum /
          sierraKernel.divisor = 7 / 32) := by
  refine ⟨?_, ?_, ?_, ?_⟩
  · intro h1 h2
    rw [fsAdds, if_pos h1, if_pos h2, if_pos h2, if_pos (And.intro h2 h1)]
    constructor
    · simp only [List.map_append, List.sum_append, List.map_cons, List.map_nil,
        List.sum_cons, List.sum_nil]
      norm_num
    · rfl
  · intro h0 h1 h2
    have h1' : x + 1 < w := by omega
    have hy1 : y + 1 < h := by omega
    rw [jjnAdds, if_pos h1', if_pos h1, if_pos hy1, if_pos h2, if_pos h0, if_pos h1',
      if_pos h1, if_pos h0, if_pos h0, if_pos h1', if_pos h1, if_pos h0]
    constructor
    · simp only [List.map_append, List.sum_append, List.map_cons, List.map_nil,
        List.sum_cons, List.sum_nil]
      norm_num
    · rfl
  · intro h0 h1 h2
    have h1' : x + 1 < w := by omega
    have h2' : x + 2 < w := by omega
    have hsum : ((stuckiAdds w h x y errIdx rowStart 1 0 0).map Prod.snd).sum = 32 := by
      rw [stuckiAdds, if_pos h1', if_pos h2', if_pos h2, if_pos h0, if_pos h1',
        if_pos h2', if_pos h1]
      simp only [List.map_append, List.sum_append, List.map_cons, List.map_nil,
        List.sum_cons, List.sum_nil]
      norm_num
    refine ⟨hsum, rfl, ?_⟩
    rw [hsum]
    norm_num [stuckiKernel]
  · intro h0 h1 h2
    have h1' : x + 1 < w := by omega
    have h2' : x + 2 < w := by omega
    have hsum : ((sierraAdds w h x y errIdx rowStart 1 0 0).map Prod.snd).sum = 25 := by
      rw [sierraAdds, if_pos h1', if_pos h2', if_pos h2, if_pos h0, if_pos h1',
        if_pos h2', if_pos h1]
      simp only [List.map_append, List.sum_append, List.map_cons, List.map_nil,
        List.sum_cons, List.sum_nil]
      norm_num
    refine ⟨hsum, rfl, ?_⟩
    rw [hsum]
    norm_num [sierraKernel]

/-- C10, witnessed at a concrete interior pixel. -/
theorem C10_witness :
    ((fsAdds 10 10 3 3 0 id 1 0 0).map Prod.snd).sum = 16 ∧
      ((jjnAdds 10 10 3 3 0 id 1 0 0).map Prod.snd).sum = 48 ∧
      ((stuckiAdds 10 10 3 3 0 id 1 0 0).map Prod.snd).sum = 32 ∧
      ((sierraAdds 10 10 3 3 0 id 1 0 0).map Prod.snd).sum = 25 :=
  ⟨((C10_kernel_weight_sums 10 10 3 3 0 id).1 (by norm_num) (by norm_num)).1,
   ((C10_kernel_weight_sums 10 10 3 3 0 id).2.1 (by norm_num) (by norm_num) (by norm_num)).1,
   ((C10_kernel_weight_sums 10 10 3 3 0 id).2.2.1 (by norm_num) (by norm_num) (by norm_num)).1,
   ((C10_kernel_weight_sums 10 10 3 3 0 id).2.2.2 (by norm_num) (by norm_num) (by norm_num)).1⟩

/-! ### Claim C3 -/

theorem cellPixelFold_eq (data : List ℚ) (w py : ℕ) :
    ∀ (n x0 : ℕ) (acc : ℚ × ℚ × ℚ × ℚ × ℕ),
      (List.range' x0 n).foldl (cellPixelStep data w py) acc =
        (acc.1 + ((List.range' x0 n).map (fun px => getQ data ((py * w + px) * 4))).sum,
         acc.2.1 + ((List.range' x0 n).map (fun px => getQ data ((py * w + px) * 4 + 1))).sum,
         acc.2.2.1 + ((List.range' x0 n).map (fun px => getQ data ((py * w + px) * 4 + 2))).sum,
         acc.2.2.2.1 + ((List.range' x0 n).map (fun px => getQ data ((py * w + px) * 4 + 3))).sum,
         acc.2.2.2.2 + n) := by
  intro n
  induction n with
  | zero =>
    intro x0 acc
    obtain ⟨a, b, cc, d, e⟩ := acc
    simp
  | succ n ih =>
    intro x0 acc
    obtain ⟨a, b, cc, d, e⟩ := acc
    rw [List.range'_succ, List.foldl_cons, ih]
    simp only [cellPixelStep, List.map_cons, List.sum_cons, Prod.mk.injEq]
    refine ⟨by ring, by ring, by ring, by ring, by omega⟩

theorem cellRowFold_eq (data : List ℚ) (w x0 x1 : ℕ) :
    ∀ (m y0 : ℕ) (acc : ℚ × ℚ × ℚ × ℚ × ℕ),
      (List.range' y0 m).foldl (cellRowStep data w x0 x1) acc =
        (acc.1 + ((List.range' y0 m).map (fun py =>
            ((List.range' x0 (x1 - x0)).map (fun px =>
              getQ data ((py * w + px) * 4))).sum)).sum,
         acc.2.1 + ((List.range' y0 m).map (fun py =>
            ((List.range' x0 (x1 - x0)).map (fun px =>
              getQ data ((py * w + px) * 4 + 1))).sum)).sum,
         acc.2.2.1 + ((List.range' y0 m).map (fun py =>
            ((List.range' x0 (x1 - x0)).map (fun px =>
              getQ data ((py * w + px) * 4 + 2))).sum)).sum,
         acc.2.2.2.1 + ((List.range' y0 m).map (fun py =>
            ((List.range' x0 (x1 - x0)).map (fun px =>
              getQ data ((py * w + px) * 4 + 3))).sum)).sum,
         acc.2.2.2.2 + m * (x1 - x0)) := by
  intro m
  induction m with
  | zero =>
    intro y0 acc
    obtain ⟨a, b, cc, d, e⟩ := acc
    simp
  | succ m ih =>
    intro y0 acc
    obtain ⟨a, b, cc, d, e⟩ := acc
    rw [List.range'_succ, List.foldl_cons, cellRowStep,
      cellPixelFold_eq data w y0 (x1 - x0) x0, ih]
    simp only [List.map_cons, List.sum_cons, Prod.mk.injEq]
    refine ⟨by ring, by ring, by ring, by ring, by ring⟩

theorem cellAccum_eq (data : List ℚ) (w x0 x1 y0 y1 : ℕ) :
    cellAccum data w x0 x1 y0 y1 =
      (((List.range' y0 (y1 - y0)).map (fun py =>
          ((List.range' x0 (x1 - x0)).map (fun px =>
            getQ data ((py * w + px) * 4))).sum)).sum,
       ((List.range' y0 (y1 - y0)).map (fun py =>
          ((List.range' x0 (x1 - x0)).map (fun px =>
            getQ data ((py * w + px) * 4 + 1))).sum)).sum,
       ((List.range' y0 (y1 - y0)).map (fun py =>
          ((List.range' x0 (x1 - x0)).map (fun px =>
            getQ data ((py * w + px) * 4 + 2))).sum)).sum,
       ((List.range' y0 (y1 - y0)).map (fun py =>
          ((List.range' x0 (x1 - x0)).map (fun px =>
            getQ data ((py * w + px) * 4 + 3))).sum)).sum,
       (y1 - y0) * (x1 - x0)) := by
  unfold cellAccum
  rw [cellRowFold_eq]
  simp

theorem downsampleCell_eq_spec (data : List ℚ) (w sw : ℕ) (scaleX scaleY : ℚ)
    (buf : List ℚ) (x y : ℕ) :
    downsampleCell data w sw scaleX scaleY buf x y =
      specDownsampleCell data w sw scaleX scaleY buf x y := by
  simp only [downsampleCell, specDownsampleCell, specCellAvg]
  rw [cellAccum_eq]
  norm_num

theorem foldl_fun_congr {α β : Type} (f g : β → α → β) (h : ∀ b a, f b a = g b a)
    (l : List α) (init : β) : l.foldl f init = l.foldl g init := by
  induction l generalizing init with
  | nil => rfl
  | cons a t ih => rw [List.foldl_cons, List.foldl_cons, h, ih]

theorem downsampleBuf_eq_spec (data : List ℚ) (w sw sh : ℕ) (scaleX scaleY : ℚ) :
    downsampleBuf data w sw sh scaleX scaleY =
      specDownsampleBuf data w sw sh scaleX scaleY := by
  unfold downsampleBuf specDownsampleBuf
  apply foldl_fun_congr
  intro b y
  apply foldl_fun_congr
  intro b' x
  exact downsampleCell_eq_spec data w sw scaleX scaleY b' x y

theorem runDither_one (t : DitherType) (data : List ℚ) (w h : ℕ)
    (pal : List Triple) (intensity : ℚ) (c : Cache) :
    runDither t data w h pal intensity 1 c = runCore t data w h pal intensity c :=
  runDither_ge_one t data w h pal intensity 1 c (by norm_num)

/-- C3 counterexample.  The claim says the scaled pass runs "at full
    intensity"; the source passes the caller's intensity through unchanged.
    On a uniform gray 2×2 image at intensity 0 and resolution 1/2 (scaled
    dimensions are clamped up to 2×2, so downsampling is the identity), the
    source produces an all-white image while the claim's full-intensity
    pipeline dithers pixel 0 down to black. -/
theorem C3_counterexample :
    (applyBayerDithering
        [128, 128, 128, 255, 128, 128, 128, 255, 128, 128, 128, 255, 128, 128, 128, 255]
        2 2 [(0, 0, 0), (255, 255, 255)] 0 (1/2) []).1 ≠
      (specLowerResolutionFullIntensity DitherType.bayer
        [128, 128, 128, 255, 128, 128, 128, 255, 128, 128, 128, 255, 128, 128, 128, 255]
        2 2 [(0, 0, 0), (255, 255, 255)] (1/2) []).1 := by
  intro hcontra
  have h1 : getQ ((applyBayerDithering
      [128, 128, 128, 255, 128, 128, 128, 255, 128, 128, 128, 255, 128, 128, 128, 255]
      2 2 [(0, 0, 0), (255, 255, 255)] 0 (1/2) []).1) 0 = 255 := by
    with_unfolding_all rfl
  have h2 : getQ ((specLowerResolutionFullIntensity DitherType.bayer
      [128, 128, 128, 255, 128, 128, 128, 255, 128, 128, 128, 255, 128, 128, 128, 255]
      2 2 [(0, 0, 0), (255, 255, 255)] (1/2) []).1) 0 = 0 := by
    with_unfolding_all rfl
  rw [hcontra, h2] at h1
  norm_num at h1

/-- C3 (amended): for every framebuffer, palette, intensity and
    resolution < 1, each dithering entry point computes
    `scaledDim = max(2, floor(dim·resolution))`, box-downsamples by
    channel-wise averaging of all source pixels mapping into each
    destination cell, runs the requested dithering algorithm AT THE
    CALLER'S INTENSITY (not at full intensity, as claimed) with resolution
    forced to 1.0, and upsamples back to the original dimensions by
    nearest-neighbor. -/
theorem C3_amended_lower_resolution (t : DitherType) (data : List ℚ) (w h : ℕ)
    (pal : List Triple) (intensity resolution : ℚ) (c : Cache)
    (hres : resolution < 1) :
    runDither t data w h pal intensity resolution c =
      specLowerResolution t data w h pal intensity resolution c := by
  rw [runDither_lt_one t data w h pal intensity resolution c hres]
  simp only [applyDitheringAtLowerResolution, specLowerResolution]
  rw [downsampleBuf_eq_spec, runDither_one]

/-- C3 amended, witnessed at the counterexample's input. -/
theorem C3_amended_witness :
    runDither DitherType.bayer
        [128, 128, 128, 255, 128, 128, 128, 255, 128, 128, 128, 255, 128, 128, 128, 255]
        2 2 [(0, 0, 0), (255, 255, 255)] 0 (1/2) [] =
      specLowerResolution DitherType.bayer
        [128, 128, 128, 255, 128, 128, 128, 255, 128, 128, 128, 255, 128, 128, 128, 255]
        2 2 [(0, 0, 0), (255, 255, 255)] 0 (1/2) [] :=
  C3_amended_lower_resolution DitherType.bayer
    [128, 128, 128, 255, 128, 128, 128, 255, 128, 128, 128, 255, 128, 128, 128, 255]
    2 2 [(0, 0, 0), (255, 255, 255)] 0 (1/2) [] (by norm_num)
